import Mathlib

/-!
Shallow embedding of the HR Workflow Designer graph engine
(src/workflow_engine_project/app/engine/graph_engine.py, models.py, tools.py).

Modelling conventions:
* A Python state document (`Dict[str, Any]`) is a `StateDoc`, an association
  list of string keys and JSON-like values, kept in Python insertion order.
* Python dict objects are references; the engine distinguishes aliasing from
  copying via `deepcopy`.  We model this with an explicit `Heap` of documents:
  a dict reference is a `Nat` address, `deepcopy` allocates a fresh cell
  holding the same document, in-place mutation overwrites a cell.
* `uuid4()` is modelled as drawing a fresh identifier from the engine's
  monotone counter `next_id`; identifiers are `Nat`.
* A tool callable `fn(state)` may mutate the dict it receives and then return
  `None`, the received dict itself, or a newly built dict, or raise.  This is
  modelled by `Tool.effect` (the in-place mutation applied to the received
  document) and `Tool.result` (what is returned, as a function of the
  received document).
* Exceptions are modelled with `Except String`; `str(exc)` of a `KeyError`
  is rendered with the quoted key, other messages are taken verbatim from
  the source.
-/

namespace WorkflowEngine

/-- JSON-like values stored in a state document.  The engine treats state as
opaque except for the reserved control key, so a flat value universe
(null, bool, int, string) suffices for everything the engine inspects. -/
inductive Val where
  | vNull
  | vBool (b : Bool)
  | vInt (n : Int)
  | vStr (s : String)
deriving DecidableEq, Repr

/-- A state document: an association list in Python dict insertion order. -/
abbrev StateDoc := List (String × Val)

/-- Python `k in d`. -/
def dictMem (k : String) (d : StateDoc) : Bool :=
  d.any (fun p => p.1 == k)

/-- Python `d.get(k, v0)` / `d[k]` when the key is present. -/
def dictGetD (k : String) (d : StateDoc) (v0 : Val) : Val :=
  ((d.find? (fun p => p.1 == k)).map Prod.snd).getD v0

/-- Python `d.pop(k)`: the document with the entry for `k` removed. -/
def dictPop (k : String) (d : StateDoc) : StateDoc :=
  d.filter (fun p => p.1 != k)

/-- Python `d[k] = v`: update in place (keeping position) or append. -/
def dictSet (d : StateDoc) (k : String) (v : Val) : StateDoc :=
  match dictMem k d with
  | true => d.map (fun p => bif p.1 == k then (p.1, v) else p)
  | false => d ++ [(k, v)]

/-- Heap of dict objects; an address is an index into `cells`.
Allocation appends; `deepcopy` is `alloc` of the read value. -/
structure Heap where
  cells : List StateDoc
deriving Repr

def Heap.length (h : Heap) : Nat := h.cells.length

def Heap.readD (h : Heap) (a : Nat) : StateDoc := h.cells.getD a []

def Heap.write (h : Heap) (a : Nat) (d : StateDoc) : Heap := ⟨h.cells.set a d⟩

def Heap.alloc (h : Heap) (d : StateDoc) : Heap × Nat :=
  (⟨h.cells ++ [d]⟩, h.cells.length)

/-- What a tool callable returns (tools.py: `ToolFn`); `raiseErr` models the
call raising an exception with message `msg`. -/
inductive ToolResult where
  | noneRet
  | selfRet
  | newRet (d : StateDoc)
  | raiseErr (msg : String)

/-- A tool callable: `effect` is the in-place mutation it applies to the dict
it receives, `result` what it returns, both as functions of the received
document's value. -/
structure Tool where
  effect : StateDoc → StateDoc
  result : StateDoc → ToolResult

/-- ToolRegistry.get (tools.py lines 30-33). -/
def registryGet (reg : List (String × Tool)) (name : String) : Except String Tool :=
  match reg.lookup name with
  | none => .error ("Tool \x27" ++ name ++ "\x27 is not registered")
  | some t => .ok t

/-- models.py `NodeDefinition`. -/
structure NodeDefinition where
  id : String
  tool_name : String

/-- models.py `GraphCreateRequest`. -/
structure GraphCreateRequest where
  name : String
  start_node_id : String
  nodes : List NodeDefinition
  edges : List (String × Option String)

/-- graph_engine.py `Graph`. -/
structure Graph where
  id : Nat
  name : String
  start_node_id : String
  nodes : List (String × String)
  edges : List (String × Option String)

/-- models.py `ExecutionStep`; `input_state` and `output_state` are heap
addresses of the logged snapshot dicts. -/
structure ExecutionStep where
  step_index : Nat
  node_id : String
  tool_name : String
  input_state : Nat
  output_state : Nat
deriving DecidableEq, Repr

/-- graph_engine.py `RunRecord`; `state` is the heap address of the record's
state dict; `current_node_id` holds whatever Python value was assigned
(`None` is `none`). -/
structure RunRecord where
  id : Nat
  graph_id : Nat
  state : Nat
  current_node_id : Option Val
  log : List ExecutionStep
  status : String
  error : Option String
deriving Repr

/-- models.py `GraphStateResponse` (state and log are passed by reference). -/
structure GraphStateResponse where
  run_id : Nat
  graph_id : Nat
  status : String
  current_node_id : Option Val
  state : Nat
  log : List ExecutionStep
  error : Option String
deriving Repr

/-- graph_engine.py `GraphEngine` plus the explicit heap and the fresh-id
counter modelling `uuid4`. -/
structure GraphEngine where
  tool_registry : List (String × Tool)
  graphs : List (Nat × Graph)
  runs : List (Nat × RunRecord)
  heap : Heap
  next_id : Nat

/-- Python dict assignment `m[k] = v` on a Nat-keyed store. -/
def storeAssign {α : Type} (m : List (Nat × α)) (k : Nat) (v : α) : List (Nat × α) :=
  match m.any (fun p => p.1 == k) with
  | true => m.map (fun p => bif p.1 == k then (k, v) else p)
  | false => m ++ [(k, v)]

/-- In-place field update of the run record object stored under `rid`
(Python mutates the record through the shared reference). -/
def updateRun (runs : List (Nat × RunRecord)) (rid : Nat) (f : RunRecord → RunRecord) :
    List (Nat × RunRecord) :=
  runs.map (fun p => bif p.1 == rid then (p.1, f p.2) else p)

/-- Rendering of `str(KeyError(k))` for a string key. -/
def keyErrorStr (k : String) : String := "\x27" ++ k ++ "\x27"

/-- Rendering of `str(KeyError(k))` for a non-string key (debug repr). -/
def keyErrorVal : Val → String
  | .vNull => "None"
  | .vBool b => if b then "True" else "False"
  | .vInt n => toString n
  | .vStr s => keyErrorStr s

/-- The max-steps failure message (graph_engine.py lines 164-167). -/
def maxStepsMsg (max_steps : Nat) : String :=
  "Max steps (" ++ toString max_steps ++ ") reached. " ++
    "Your graph likely has an infinite loop."

/-- Edge validation loop of create_graph (graph_engine.py lines 67-71):
first violation message, if any. -/
def validateEdges (node_ids : List String) : List (String × Option String) → Option String
  | [] => none
  | (src, dst) :: rest =>
    match node_ids.contains src with
    | false => some ("Edge source \x27" ++ src ++ "\x27 is not a valid node id")
    | true =>
      match dst with
      | some d =>
        match node_ids.contains d with
        | false => some ("Edge target \x27" ++ d ++ "\x27 is not a valid node id")
        | true => validateEdges node_ids rest
      | none => validateEdges node_ids rest

/-- Python dict comprehension over node definitions (last binding wins,
first-insertion position kept). -/
def buildNodes (nodes : List NodeDefinition) : List (String × String) :=
  nodes.foldl (fun acc n =>
    match acc.any (fun p => p.1 == n.id) with
    | true => acc.map (fun p => bif p.1 == n.id then (p.1, n.tool_name) else p)
    | false => acc ++ [(n.id, n.tool_name)]) []

/-- GraphEngine.create_graph (graph_engine.py lines 58-85). -/
def create_graph (e : GraphEngine) (req : GraphCreateRequest) :
    GraphEngine × Except String Nat :=
  let node_ids := req.nodes.map (fun n => n.id)
  match node_ids.contains req.start_node_id with
  | false => (e, .error "start_node_id must be one of the node IDs")
  | true =>
    match validateEdges node_ids req.edges with
    | some msg => (e, .error msg)
    | none =>
      let graph_id := e.next_id
      let graph : Graph :=
        { id := graph_id
          name := req.name
          start_node_id := req.start_node_id
          nodes := buildNodes req.nodes
          edges := req.edges }
      ({ e with graphs := storeAssign e.graphs graph_id graph, next_id := e.next_id + 1 },
       .ok graph_id)

/-- Result of one tool invocation phase (graph_engine.py lines 129-135):
the heap after the call and state reassignment, the address of the logged
input snapshot, the address of the argument copy handed to the tool, and
the address now bound to the working-state variable. -/
structure InvokeResult where
  heap : Heap
  inAddr : Nat
  argAddr : Nat
  stateAddr : Nat

/-- Lines 129-135 of graph_engine.py: snapshot the input, call the tool on a
deep copy of the working state, and rebind `state` according to the return
value (the `None` sentinel keeps the prior dict). -/
def invoke_tool (t : Tool) (h : Heap) (stateAddr : Nat) : Except (Heap × String) InvokeResult :=
  let stDoc := h.readD stateAddr
  let al1 := h.alloc stDoc
  let al2 := al1.1.alloc stDoc
  let h3 := al2.1.write al2.2 (t.effect stDoc)
  match t.result stDoc with
  | .raiseErr m => .error (h3, m)
  | .noneRet => .ok ⟨h3, al1.2, al2.2, stateAddr⟩
  | .selfRet => .ok ⟨h3, al1.2, al2.2, al2.2⟩
  | .newRet d =>
    let al3 := h3.alloc d
    .ok ⟨al3.1, al1.2, al2.2, al3.2⟩

/-- When the Python value assigned to `current_node_id` is `None` the loop
treats it as terminal; any other value is a live node reference. -/
def optOfVal : Val → Option Val
  | .vNull => none
  | v => some v

/-- Lines 149-153 of graph_engine.py: next-node resolution.  If the reserved
control key is present it is popped (mutating the working-state dict) and
its value taken; otherwise the static edge of the current node is used. -/
def resolve_next (graph : Graph) (cur : String) (h : Heap) (stateAddr : Nat) :
    Heap × Option Val :=
  let d := h.readD stateAddr
  match dictMem "_next_node" d with
  | true =>
    (h.write stateAddr (dictPop "_next_node" d), optOfVal (dictGetD "_next_node" d .vNull))
  | false => (h, ((graph.edges.lookup cur).getD none).map Val.vStr)

/-- Mutable state of the run loop: the engine (heap and stores), the address
bound to the `state` variable, `current_node_id`, and the local `log` list. -/
structure LoopState where
  engine : GraphEngine
  stateAddr : Nat
  current : Option Val
  log : List ExecutionStep

/-- Outcome of one iteration of the `for` body: `brk` models the
`break` on a null current node, `err` an exception raised inside the body
(with the state at the raise point), `next` a completed iteration. -/
inductive StepOutcome where
  | brk (s : LoopState)
  | err (s : LoopState) (msg : String)
  | next (s : LoopState)

/-- Lines 137-160 of graph_engine.py, after a successful tool invocation:
snapshot the output state, append the ExecutionStep to the local log, resolve
the next node, and write state, current node and a copy of the log back into
the stored run record. -/
def stepFinish (graph : Graph) (rid : Nat) (step_index : Nat) (s : LoopState)
    (cur tool_name : String) (ivr : InvokeResult) : LoopState :=
  let al := ivr.heap.alloc (ivr.heap.readD ivr.stateAddr)
  let step : ExecutionStep :=
    { step_index := step_index
      node_id := cur
      tool_name := tool_name
      input_state := ivr.inAddr
      output_state := al.2 }
  let log1 := s.log ++ [step]
  let rn := resolve_next graph cur al.1 ivr.stateAddr
  let al2 := rn.1.alloc (rn.1.readD ivr.stateAddr)
  let runs1 := updateRun s.engine.runs rid (fun r =>
    { r with state := al2.2, current_node_id := rn.2, log := log1 })
  { engine := { s.engine with heap := al2.1, runs := runs1 }
    stateAddr := ivr.stateAddr
    current := rn.2
    log := log1 }

/-- One iteration of the loop body, graph_engine.py lines 122-160. -/
def runStep (graph : Graph) (rid : Nat) (step_index : Nat) (s : LoopState) : StepOutcome :=
  match s.current with
  | none => .brk s
  | some curVal =>
    match curVal with
    | .vStr cur =>
      match graph.nodes.lookup cur with
      | none => .err s (keyErrorStr cur)
      | some tool_name =>
        match registryGet s.engine.tool_registry tool_name with
        | .error m => .err s m
        | .ok tool =>
          match invoke_tool tool s.engine.heap s.stateAddr with
          | .error (h, m) => .err { s with engine := { s.engine with heap := h } } m
          | .ok ivr => .next (stepFinish graph rid step_index s cur tool_name ivr)
    | v => .err s (keyErrorVal v)

/-- Result of the `for`/`else` loop: either a `break` happened (success path)
or an exception was raised (body failure or loop exhaustion). -/
inductive LoopResult where
  | completed (s : LoopState)
  | failed (s : LoopState) (msg : String)

/-- The `for step_index in range(max_steps) ... else raise` loop of
graph_engine.py lines 121-167, with `fuel` the remaining iteration count. -/
def runLoop (graph : Graph) (rid : Nat) (max_steps : Nat) :
    Nat → Nat → LoopState → LoopResult
  | 0, _, s => .failed s (maxStepsMsg max_steps)
  | fuel + 1, step_index, s =>
    match runStep graph rid step_index s with
    | .brk s1 => .completed s1
    | .err s1 m => .failed s1 m
    | .next s1 => runLoop graph rid max_steps fuel (step_index + 1) s1

/-- Lines 103-115 of graph_engine.py: fresh run id, deep copy of the caller's
initial state into the working state, creation and insertion of the running
RunRecord (whose state is a further deep copy), before the first step. -/
def initRun (e : GraphEngine) (graph : Graph) (initAddr : Nat) :
    GraphEngine × Nat × LoopState :=
  let run_id := e.next_id
  let al1 := e.heap.alloc (e.heap.readD initAddr)
  let al2 := al1.1.alloc (al1.1.readD al1.2)
  let rec0 : RunRecord :=
    { id := run_id
      graph_id := graph.id
      state := al2.2
      current_node_id := some (.vStr graph.start_node_id)
      log := []
      status := "running"
      error := none }
  let e1 : GraphEngine :=
    { e with
      heap := al2.1
      runs := storeAssign e.runs run_id rec0
      next_id := e.next_id + 1 }
  (e1, run_id,
   { engine := e1
     stateAddr := al1.2
     current := some (.vStr graph.start_node_id)
     log := [] })

/-- GraphEngine.run_graph (graph_engine.py lines 89-175).  The caller's
initial state is passed by reference as a heap address; on success the
returned triple carries the run id, the working-state address, and the local
log; on failure the exception message is surfaced after the record has been
marked failed. -/
def run_graph (e : GraphEngine) (graph_id : Nat) (initAddr : Nat) (max_steps : Nat) :
    GraphEngine × Except String (Nat × Nat × List ExecutionStep) :=
  match e.graphs.lookup graph_id with
  | none => (e, .error (keyErrorStr (toString graph_id)))
  | some graph =>
    let ir := initRun e graph initAddr
    let run_id := ir.2.1
    match runLoop graph run_id max_steps max_steps 0 ir.2.2 with
    | .completed sf =>
      let e2 : GraphEngine :=
        { sf.engine with
          runs := updateRun sf.engine.runs run_id (fun r => { r with status := "completed" }) }
      (e2, .ok (run_id, sf.stateAddr, sf.log))
    | .failed sf msg =>
      let e2 : GraphEngine :=
        { sf.engine with
          runs := updateRun sf.engine.runs run_id (fun r =>
            { r with status := "failed", error := some msg }) }
      (e2, .error msg)

/-- GraphEngine.get_run_state (graph_engine.py lines 179-192). -/
def get_run_state (e : GraphEngine) (run_id : Nat) : Except String GraphStateResponse :=
  match e.runs.lookup run_id with
  | none => .error (keyErrorStr (toString run_id))
  | some r =>
    .ok
      { run_id := r.id
        graph_id := r.graph_id
        status := r.status
        current_node_id := r.current_node_id
        state := r.state
        log := r.log
        error := r.error }

/-! Basic lemmas about the heap model. -/

theorem Heap.length_write (h : Heap) (a : Nat) (d : StateDoc) :
    (h.write a d).length = h.length := by
  simp [Heap.write, Heap.length]

theorem Heap.length_alloc (h : Heap) (d : StateDoc) :
    (h.alloc d).1.length = h.length + 1 := by
  simp [Heap.alloc, Heap.length]

theorem Heap.alloc_addr (h : Heap) (d : StateDoc) : (h.alloc d).2 = h.length := rfl

theorem Heap.readD_alloc_self (h : Heap) (d : StateDoc) :
    (h.alloc d).1.readD h.length = d := by
  simp [Heap.alloc, Heap.readD, Heap.length, List.getD_eq_getElem?_getD]

theorem Heap.readD_alloc_ne (h : Heap) (d : StateDoc) (b : Nat) (hb : b ≠ h.length) :
    (h.alloc d).1.readD b = h.readD b := by
  simp only [Heap.alloc, Heap.readD, List.getD_eq_getElem?_getD]
  rcases Nat.lt_or_ge b h.cells.length with hlt | hge
  · rw [List.getElem?_append]
    simp [hlt]
  · have h1 : h.cells.length ≤ b := hge
    have h2 : h.cells.length < b := lt_of_le_of_ne h1 (fun hc => hb hc.symm)
    rw [List.getElem?_eq_none (by simpa using Nat.succ_le_of_lt h2),
      List.getElem?_eq_none (by simpa using h1)]

theorem Heap.readD_write_self (h : Heap) (a : Nat) (d : StateDoc) (ha : a < h.length) :
    (h.write a d).readD a = d := by
  simp only [Heap.write, Heap.readD, List.getD_eq_getElem?_getD]
  rw [List.getElem?_set_self (by simpa using ha)]
  rfl

theorem Heap.readD_write_ne (h : Heap) (a : Nat) (d : StateDoc) (b : Nat) (hb : b ≠ a) :
    (h.write a d).readD b = h.readD b := by
  simp only [Heap.write, Heap.readD, List.getD_eq_getElem?_getD]
  rw [List.getElem?_set_ne (fun hc => hb hc.symm)]

/-! Basic lemmas about the run/graph stores. -/

theorem lookup_map_assign_self {α : Type} (k : Nat) (v : α) (m : List (Nat × α))
    (hany : (m.any fun p => p.1 == k) = true) :
    (m.map fun p => bif p.1 == k then (k, v) else p).lookup k = some v := by
  induction m with
  | nil => simp at hany
  | cons p m ih =>
    cases hpk : (p.1 == k) with
    | true => simp [List.lookup, hpk]
    | false =>
      have hkp : (k == p.1) = false := beq_false_of_ne (Ne.symm (ne_of_beq_false hpk))
      simp only [List.any_cons, hpk, Bool.false_or] at hany
      simp [List.lookup, hpk, hkp, ih hany]

theorem lookup_storeAssign_self {α : Type} (m : List (Nat × α)) (k : Nat) (v : α) :
    (storeAssign m k v).lookup k = some v := by
  unfold storeAssign
  split
  · exact lookup_map_assign_self k v m (by assumption)
  · induction m with
    | nil => simp [List.lookup]
    | cons p m ih =>
      next hany =>
        simp only [List.any_cons, Bool.or_eq_false_iff] at hany
        have hkp : (k == p.1) = false :=
          beq_false_of_ne (Ne.symm (ne_of_beq_false hany.1))
        simp only [List.cons_append, List.lookup, hkp]
        exact ih hany.2

theorem lookup_map_assign_ne {α : Type} (k j : Nat) (v : α) (m : List (Nat × α))
    (hj : j ≠ k) :
    (m.map fun p => bif p.1 == k then (k, v) else p).lookup j = m.lookup j := by
  induction m with
  | nil => simp
  | cons p m ih =>
    cases hpk : (p.1 == k) with
    | true =>
      have hjp : (j == p.1) = false :=
        beq_false_of_ne (fun hc => hj (hc.trans (eq_of_beq hpk)))
      have hjk : (j == k) = false := beq_false_of_ne hj
      simp [List.lookup, hpk, hjp, hjk, ih]
    | false =>
      simp only [List.map_cons, hpk, Bool.cond_false, List.lookup]
      cases hjp : (j == p.1) <;> simp [ih]

theorem lookup_append_single_ne {α : Type} (k j : Nat) (v : α) (m : List (Nat × α))
    (hj : j ≠ k) : (m ++ [(k, v)]).lookup j = m.lookup j := by
  induction m with
  | nil => simp [List.lookup, beq_false_of_ne hj]
  | cons p m ih =>
    simp only [List.cons_append, List.lookup]
    cases hjp : (j == p.1) <;> simp [ih]

theorem lookup_storeAssign_ne {α : Type} (m : List (Nat × α)) (k j : Nat) (v : α)
    (hj : j ≠ k) : (storeAssign m k v).lookup j = m.lookup j := by
  unfold storeAssign
  split
  · exact lookup_map_assign_ne k j v m hj
  · exact lookup_append_single_ne k j v m hj

theorem lookup_updateRun_self (runs : List (Nat × RunRecord)) (rid : Nat)
    (f : RunRecord → RunRecord) :
    (updateRun runs rid f).lookup rid = (runs.lookup rid).map f := by
  induction runs with
  | nil => simp [updateRun]
  | cons p m ih =>
    cases hpk : (p.1 == rid) with
    | true =>
      have hk : (rid == rid) = true := by simp
      have hrp : (rid == p.1) = true := by
        have := eq_of_beq hpk
        simp [this]
      simp [updateRun, List.lookup, hpk, hk, hrp]
    | false =>
      have hrp : (rid == p.1) = false := beq_false_of_ne (Ne.symm (ne_of_beq_false hpk))
      simpa [updateRun, List.lookup, hpk, hrp] using ih

theorem lookup_updateRun_ne (runs : List (Nat × RunRecord)) (rid j : Nat)
    (f : RunRecord → RunRecord) (hj : j ≠ rid) :
    (updateRun runs rid f).lookup j = runs.lookup j := by
  induction runs with
  | nil => simp [updateRun]
  | cons p m ih =>
    cases hpk : (p.1 == rid) with
    | true =>
      have hjp : (j == p.1) = false :=
        beq_false_of_ne (fun hc => hj (hc.trans (eq_of_beq hpk)))
      have hjk : (j == rid) = false := beq_false_of_ne hj
      simpa [updateRun, List.lookup, hpk, hjp, hjk, eq_of_beq hpk] using ih
    | false =>
      simp only [updateRun, List.map_cons, hpk, Bool.cond_false, List.lookup]
      cases hjp : (j == p.1)
      · simpa [updateRun] using ih
      · simp [updateRun] at ih
        simp [ih]

/-! Reachability of loop states and the run-loop invariant. -/

/-- The heap addresses referenced by the snapshot dicts of a log. -/
def logAddrs (log : List ExecutionStep) : List Nat :=
  log.flatMap (fun st => [st.input_state, st.output_state])

theorem logAddrs_append (log : List ExecutionStep) (st : ExecutionStep) :
    logAddrs (log ++ [st]) = logAddrs log ++ [st.input_state, st.output_state] := by
  simp [logAddrs]

/-- The loop state after `k` consecutive completed iterations starting at
iteration `idx`, or `none` if a break or an exception intervenes. -/
def loopIter (graph : Graph) (rid : Nat) : Nat → Nat → LoopState → Option LoopState
  | 0, _, s => some s
  | k + 1, idx, s =>
    match runStep graph rid idx s with
    | .next s1 => loopIter graph rid k (idx + 1) s1
    | _ => none

/-- Relation between the stored run record `r` and the live loop state `s`:
the record mirrors the loop's log and current node, its state dict is a fresh
copy of the working state, and its address is disjoint from every address the
loop still uses.  `n0` is the heap size before the run started. -/
structure RecMatch (n0 rid : Nat) (s : LoopState) (r : RunRecord) : Prop where
  rid_eq : r.id = rid
  log_eq : r.log = s.log
  cur_eq : r.current_node_id = s.current
  status_eq : r.status = "running"
  error_eq : r.error = none
  state_ge : n0 ≤ r.state
  state_lt : r.state < s.engine.heap.length
  state_notin : r.state ∉ logAddrs s.log
  state_ne : r.state ≠ s.stateAddr
  content : s.engine.heap.readD r.state = s.engine.heap.readD s.stateAddr

/-- Invariant maintained by every iteration of the run loop.  `H0` is the
heap at run start and `n0` its size: the run only ever writes to addresses
allocated after run start, all live addresses are fresh and pairwise
disjoint, the log carries step indices `0..idx-1`, and the stored run record
matches the loop state. -/
structure LoopInv (H0 : Heap) (n0 rid idx : Nat) (s : LoopState) : Prop where
  frame : ∀ b, b < n0 → s.engine.heap.readD b = H0.readD b
  hlen : n0 ≤ s.engine.heap.length
  state_ge : n0 ≤ s.stateAddr
  state_lt : s.stateAddr < s.engine.heap.length
  log_ge : ∀ a ∈ logAddrs s.log, n0 ≤ a
  log_lt : ∀ a ∈ logAddrs s.log, a < s.engine.heap.length
  log_nodup : (logAddrs s.log).Nodup
  state_notin : s.stateAddr ∉ logAddrs s.log
  log_idx : s.log.map (fun st => st.step_index) = List.range idx
  rec_ex : ∃ r, s.engine.runs.lookup rid = some r ∧ RecMatch n0 rid s r

/-- The heap produced by the snapshot-copy-mutate prefix of a tool
invocation: its length, the untouched old cells, the input snapshot at
`h.length`, and the mutated argument copy at `h.length + 1`. -/
theorem invoke_heap_facts (h : Heap) (d x : StateDoc) :
    (((h.alloc d).1.alloc d).1.write (h.length + 1) x).length = h.length + 2 ∧
    (∀ b, b ≠ h.length → b ≠ h.length + 1 →
      (((h.alloc d).1.alloc d).1.write (h.length + 1) x).readD b = h.readD b) ∧
    (((h.alloc d).1.alloc d).1.write (h.length + 1) x).readD h.length = d ∧
    (((h.alloc d).1.alloc d).1.write (h.length + 1) x).readD (h.length + 1) = x := by
  have hlen1 : (h.alloc d).1.length = h.length + 1 := Heap.length_alloc h d
  have hlen2 : ((h.alloc d).1.alloc d).1.length = h.length + 2 := by
    rw [Heap.length_alloc, hlen1]
  refine ⟨?_, ?_, ?_, ?_⟩
  · rw [Heap.length_write, hlen2]
  · intro b hb1 hb2
    rw [Heap.readD_write_ne _ _ _ _ hb2,
      Heap.readD_alloc_ne _ _ _ (by rw [hlen1]; exact hb2),
      Heap.readD_alloc_ne _ _ _ hb1]
  · rw [Heap.readD_write_ne _ _ _ _ (by omega),
      Heap.readD_alloc_ne _ _ _ (by rw [hlen1]; omega)]
    exact Heap.readD_alloc_self h d
  · rw [Heap.readD_write_self _ _ _ (by rw [hlen2]; omega)]

/-- Normal form of `invoke_tool` when the tool returns the None sentinel. -/
theorem invoke_tool_noneRet_eq (t : Tool) (h : Heap) (a : Nat)
    (hres : t.result (h.readD a) = .noneRet) :
    invoke_tool t h a =
      .ok ⟨((h.alloc (h.readD a)).1.alloc (h.readD a)).1.write (h.length + 1)
            (t.effect (h.readD a)), h.length, h.length + 1, a⟩ := by
  simp only [invoke_tool, hres, Heap.alloc_addr, Heap.length_alloc]

/-- Normal form of `invoke_tool` when the tool returns the dict it received. -/
theorem invoke_tool_selfRet_eq (t : Tool) (h : Heap) (a : Nat)
    (hres : t.result (h.readD a) = .selfRet) :
    invoke_tool t h a =
      .ok ⟨((h.alloc (h.readD a)).1.alloc (h.readD a)).1.write (h.length + 1)
            (t.effect (h.readD a)), h.length, h.length + 1, h.length + 1⟩ := by
  simp only [invoke_tool, hres, Heap.alloc_addr, Heap.length_alloc]

/-- Normal form of `invoke_tool` when the tool returns a newly built dict. -/
theorem invoke_tool_newRet_eq (t : Tool) (h : Heap) (a : Nat) (d : StateDoc)
    (hres : t.result (h.readD a) = .newRet d) :
    invoke_tool t h a =
      .ok ⟨((((h.alloc (h.readD a)).1.alloc (h.readD a)).1.write (h.length + 1)
              (t.effect (h.readD a))).alloc d).1,
           h.length, h.length + 1, h.length + 2⟩ := by
  simp only [invoke_tool, hres, Heap.alloc_addr, Heap.length_alloc, Heap.length_write]

/-- Normal form of `invoke_tool` when the tool raises. -/
theorem invoke_tool_raise_eq (t : Tool) (h : Heap) (a : Nat) (m : String)
    (hres : t.result (h.readD a) = .raiseErr m) :
    invoke_tool t h a =
      .error (((h.alloc (h.readD a)).1.alloc (h.readD a)).1.write (h.length + 1)
              (t.effect (h.readD a)), m) := by
  simp only [invoke_tool, hres, Heap.alloc_addr, Heap.length_alloc]

/-- Next-node resolution when the reserved control key is present. -/
theorem resolve_next_mem (graph : Graph) (cur : String) (h : Heap) (a : Nat)
    (hmem : dictMem "_next_node" (h.readD a) = true) :
    resolve_next graph cur h a =
      (h.write a (dictPop "_next_node" (h.readD a)),
       optOfVal (dictGetD "_next_node" (h.readD a) .vNull)) := by
  simp only [resolve_next, hmem]

/-- Next-node resolution when the reserved control key is absent. -/
theorem resolve_next_nomem (graph : Graph) (cur : String) (h : Heap) (a : Nat)
    (hmem : dictMem "_next_node" (h.readD a) = false) :
    resolve_next graph cur h a =
      (h, ((graph.edges.lookup cur).getD none).map Val.vStr) := by
  simp only [resolve_next, hmem]

theorem resolve_next_length (graph : Graph) (cur : String) (h : Heap) (a : Nat) :
    (resolve_next graph cur h a).1.length = h.length := by
  cases hmem : dictMem "_next_node" (h.readD a)
  · rw [resolve_next_nomem graph cur h a hmem]
  · rw [resolve_next_mem graph cur h a hmem]
    exact Heap.length_write h a _

theorem resolve_next_readD_ne (graph : Graph) (cur : String) (h : Heap) (a b : Nat)
    (hb : b ≠ a) : (resolve_next graph cur h a).1.readD b = h.readD b := by
  cases hmem : dictMem "_next_node" (h.readD a)
  · rw [resolve_next_nomem graph cur h a hmem]
  · rw [resolve_next_mem graph cur h a hmem]
    exact Heap.readD_write_ne h a _ b hb

/-- Shared consequences of a successful tool invocation, independent of
which of the three return conventions the tool used. -/
theorem invoke_tool_ok_facts (t : Tool) (h : Heap) (a : Nat) (ivr : InvokeResult)
    (hok : invoke_tool t h a = .ok ivr) :
    ivr.inAddr = h.length ∧
    h.length + 2 ≤ ivr.heap.length ∧
    (ivr.stateAddr = a ∨ (h.length + 1 ≤ ivr.stateAddr ∧ ivr.stateAddr < ivr.heap.length)) ∧
    (∀ b, b < h.length → ivr.heap.readD b = h.readD b) ∧
    ivr.heap.readD ivr.inAddr = h.readD a := by
  obtain ⟨hlen, hframe, hread_n, hread_n1⟩ :=
    invoke_heap_facts h (h.readD a) (t.effect (h.readD a))
  cases hres : t.result (h.readD a) with
  | noneRet =>
    rw [invoke_tool_noneRet_eq t h a hres] at hok
    cases hok
    exact ⟨rfl, by rw [hlen], Or.inl rfl,
      fun b hb => hframe b (by omega) (by omega), hread_n⟩
  | selfRet =>
    rw [invoke_tool_selfRet_eq t h a hres] at hok
    cases hok
    dsimp only
    exact ⟨rfl, by rw [hlen], Or.inr ⟨le_refl _, by rw [hlen]; omega⟩,
      fun b hb => hframe b (by omega) (by omega), hread_n⟩
  | newRet d =>
    rw [invoke_tool_newRet_eq t h a d hres] at hok
    cases hok
    dsimp only
    have hlen2 : ((((h.alloc (h.readD a)).1.alloc (h.readD a)).1.write (h.length + 1)
        (t.effect (h.readD a))).alloc d).1.length = h.length + 3 := by
      rw [Heap.length_alloc, hlen]
    refine ⟨rfl, by rw [hlen2]; omega, Or.inr ⟨by omega, by rw [hlen2]; omega⟩,
      fun b hb => ?_, ?_⟩
    · rw [Heap.readD_alloc_ne _ _ _ (by rw [hlen]; omega)]
      exact hframe b (by omega) (by omega)
    · rw [Heap.readD_alloc_ne _ _ _ (by rw [hlen]; omega)]
      exact hread_n
  | raiseErr m =>
    rw [invoke_tool_raise_eq t h a m hres] at hok
    exact absurd hok (by simp)

theorem stepFinish_engine_heap (graph : Graph) (rid idx : Nat) (s : LoopState)
    (cur tn : String) (ivr : InvokeResult) :
    (stepFinish graph rid idx s cur tn ivr).engine.heap =
      ((resolve_next graph cur (ivr.heap.alloc (ivr.heap.readD ivr.stateAddr)).1
          ivr.stateAddr).1.alloc
        ((resolve_next graph cur (ivr.heap.alloc (ivr.heap.readD ivr.stateAddr)).1
          ivr.stateAddr).1.readD ivr.stateAddr)).1 := rfl

theorem stepFinish_stateAddr (graph : Graph) (rid idx : Nat) (s : LoopState)
    (cur tn : String) (ivr : InvokeResult) :
    (stepFinish graph rid idx s cur tn ivr).stateAddr = ivr.stateAddr := rfl

theorem stepFinish_current (graph : Graph) (rid idx : Nat) (s : LoopState)
    (cur tn : String) (ivr : InvokeResult) :
    (stepFinish graph rid idx s cur tn ivr).current =
      (resolve_next graph cur (ivr.heap.alloc (ivr.heap.readD ivr.stateAddr)).1
        ivr.stateAddr).2 := rfl

theorem stepFinish_log (graph : Graph) (rid idx : Nat) (s : LoopState)
    (cur tn : String) (ivr : InvokeResult) :
    (stepFinish graph rid idx s cur tn ivr).log =
      s.log ++ [⟨idx, cur, tn, ivr.inAddr, ivr.heap.length⟩] := rfl

theorem stepFinish_runs (graph : Graph) (rid idx : Nat) (s : LoopState)
    (cur tn : String) (ivr : InvokeResult) :
    (stepFinish graph rid idx s cur tn ivr).engine.runs =
      updateRun s.engine.runs rid (fun r =>
        { r with
          state := (resolve_next graph cur (ivr.heap.alloc (ivr.heap.readD ivr.stateAddr)).1
            ivr.stateAddr).1.length
          current_node_id := (resolve_next graph cur
            (ivr.heap.alloc (ivr.heap.readD ivr.stateAddr)).1 ivr.stateAddr).2
          log := s.log ++ [⟨idx, cur, tn, ivr.inAddr, ivr.heap.length⟩] }) := rfl

theorem stepFinish_graphs (graph : Graph) (rid idx : Nat) (s : LoopState)
    (cur tn : String) (ivr : InvokeResult) :
    (stepFinish graph rid idx s cur tn ivr).engine.graphs = s.engine.graphs := rfl

theorem stepFinish_registry (graph : Graph) (rid idx : Nat) (s : LoopState)
    (cur tn : String) (ivr : InvokeResult) :
    (stepFinish graph rid idx s cur tn ivr).engine.tool_registry =
      s.engine.tool_registry := rfl

/-- Preservation of the loop invariant by one completed iteration of the
run loop body. -/
theorem stepFinish_inv (H0 : Heap) (n0 rid idx : Nat) (s : LoopState)
    (graph : Graph) (cur tn : String) (t : Tool) (ivr : InvokeResult)
    (inv : LoopInv H0 n0 rid idx s)
    (hok : invoke_tool t s.engine.heap s.stateAddr = .ok ivr) :
    LoopInv H0 n0 rid (idx + 1) (stepFinish graph rid idx s cur tn ivr) := by
  obtain ⟨hin, hge2, hsa_or, hfr, hread_in⟩ :=
    invoke_tool_ok_facts t s.engine.heap s.stateAddr ivr hok
  have hn0n : n0 ≤ s.engine.heap.length := inv.hlen
  have hsalt0 : s.stateAddr < s.engine.heap.length := inv.state_lt
  have hsa_lt : ivr.stateAddr < ivr.heap.length := by
    rcases hsa_or with hc | hc
    · omega
    · exact hc.2
  have hsa_ge : n0 ≤ ivr.stateAddr := by
    rcases hsa_or with hc | hc
    · rw [hc]; exact inv.state_ge
    · omega
  have hH5len : (ivr.heap.alloc (ivr.heap.readD ivr.stateAddr)).1.length =
      ivr.heap.length + 1 := Heap.length_alloc _ _
  have hRNlen : (resolve_next graph cur (ivr.heap.alloc (ivr.heap.readD ivr.stateAddr)).1
      ivr.stateAddr).1.length = ivr.heap.length + 1 := by
    rw [resolve_next_length, hH5len]
  have hH7len : (stepFinish graph rid idx s cur tn ivr).engine.heap.length =
      ivr.heap.length + 2 := by
    rw [stepFinish_engine_heap, Heap.length_alloc, hRNlen]
  -- readD on the final heap, for addresses below the record-copy cell
  have hread7 : ∀ b, b ≠ ivr.stateAddr → b ≠ ivr.heap.length → b < ivr.heap.length + 1 →
      (stepFinish graph rid idx s cur tn ivr).engine.heap.readD b = ivr.heap.readD b := by
    intro b hb1 hb2 hb3
    rw [stepFinish_engine_heap, Heap.readD_alloc_ne _ _ _ (by rw [hRNlen]; omega),
      resolve_next_readD_ne _ _ _ _ _ hb1, Heap.readD_alloc_ne _ _ _ hb2]
  have hlog1 : logAddrs (stepFinish graph rid idx s cur tn ivr).log =
      logAddrs s.log ++ [ivr.inAddr, ivr.heap.length] := by
    rw [stepFinish_log, logAddrs_append]
  have hold_lt : ∀ a ∈ logAddrs s.log, a < s.engine.heap.length := inv.log_lt
  have hmem2 : ∀ a : Nat, a ∈ [ivr.inAddr, ivr.heap.length] →
      a = ivr.inAddr ∨ a = ivr.heap.length := by
    intro a ha
    simpa using ha
  refine ⟨?_, ?_, ?_, ?_, ?_, ?_, ?_, ?_, ?_, ?_⟩
  · -- frame
    intro b hb
    rw [hread7 b (by omega) (by omega) (by omega), hfr b (by omega)]
    exact inv.frame b hb
  · -- hlen
    rw [hH7len]; omega
  · -- state_ge
    rw [stepFinish_stateAddr]; exact hsa_ge
  · -- state_lt
    rw [stepFinish_stateAddr, hH7len]; omega
  · -- log_ge
    intro a ha
    rw [hlog1] at ha
    rcases List.mem_append.mp ha with hc | hc
    · exact inv.log_ge a hc
    · rcases hmem2 a hc with hc | hc
      · rw [hc, hin]; omega
      · rw [hc]; omega
  · -- log_lt
    intro a ha
    rw [hlog1] at ha
    rw [hH7len]
    rcases List.mem_append.mp ha with hc | hc
    · have := hold_lt a hc
      omega
    · rcases hmem2 a hc with hc | hc
      · rw [hc, hin]; omega
      · rw [hc]; omega
  · -- log_nodup
    rw [hlog1]
    refine List.Nodup.append inv.log_nodup ?_ ?_
    · have : ivr.inAddr ≠ ivr.heap.length := by rw [hin]; omega
      simp [this]
    · intro a ha1 ha2
      have h1 := hold_lt a ha1
      rcases hmem2 a ha2 with hc | hc
      · rw [hc] at h1; rw [hin] at h1; omega
      · omega
  · -- state_notin
    rw [stepFinish_stateAddr, hlog1]
    intro hmem
    rcases List.mem_append.mp hmem with hc | hc
    · rcases hsa_or with hd | hd
      · rw [hd] at hc
        exact inv.state_notin hc
      · have := hold_lt _ hc
        omega
    · rcases hmem2 _ hc with hc | hc
      · rw [hin] at hc
        rcases hsa_or with hd | hd <;> omega
      · omega
  · -- log_idx
    rw [stepFinish_log]
    simp only [List.map_append, List.map_cons, List.map_nil, inv.log_idx]
    rw [List.range_succ]
  · -- rec_ex
    obtain ⟨r, hr, hm⟩ := inv.rec_ex
    refine ⟨{ r with
        state := (resolve_next graph cur (ivr.heap.alloc (ivr.heap.readD ivr.stateAddr)).1
          ivr.stateAddr).1.length
        current_node_id := (resolve_next graph cur
          (ivr.heap.alloc (ivr.heap.readD ivr.stateAddr)).1 ivr.stateAddr).2
        log := s.log ++ [⟨idx, cur, tn, ivr.inAddr, ivr.heap.length⟩] }, ?_, ?_⟩
    · rw [stepFinish_runs, lookup_updateRun_self, hr]
      rfl
    · constructor
      · exact hm.rid_eq
      · rw [stepFinish_log]
      · rw [stepFinish_current]
      · exact hm.status_eq
      · exact hm.error_eq
      · dsimp only
        rw [hRNlen]; omega
      · dsimp only
        rw [hRNlen, hH7len]; omega
      · dsimp only
        rw [hRNlen, hlog1]
        intro hmem
        rcases List.mem_append.mp hmem with hc | hc
        · have := hold_lt _ hc
          omega
        · rcases hmem2 _ hc with hc | hc
          · rw [hin] at hc; omega
          · omega
      · dsimp only
        rw [hRNlen, stepFinish_stateAddr]
        omega
      · dsimp only
        rw [hRNlen]
        have h1 : (stepFinish graph rid idx s cur tn ivr).engine.heap.readD
            (ivr.heap.length + 1) =
            (resolve_next graph cur (ivr.heap.alloc (ivr.heap.readD ivr.stateAddr)).1
              ivr.stateAddr).1.readD ivr.stateAddr := by
          rw [stepFinish_engine_heap]
          have := Heap.readD_alloc_self
            (resolve_next graph cur (ivr.heap.alloc (ivr.heap.readD ivr.stateAddr)).1
              ivr.stateAddr).1
            ((resolve_next graph cur (ivr.heap.alloc (ivr.heap.readD ivr.stateAddr)).1
              ivr.stateAddr).1.readD ivr.stateAddr)
          rw [hRNlen] at this
          exact this
        have h2 : (stepFinish graph rid idx s cur tn ivr).engine.heap.readD
            ((stepFinish graph rid idx s cur tn ivr).stateAddr) =
            (resolve_next graph cur (ivr.heap.alloc (ivr.heap.readD ivr.stateAddr)).1
              ivr.stateAddr).1.readD ivr.stateAddr := by
          rw [stepFinish_stateAddr, stepFinish_engine_heap,
            Heap.readD_alloc_ne _ _ _ (by rw [hRNlen]; omega)]
        rw [h1, h2]

/-- Extending the heap with fresh cells (without touching live addresses)
preserves the loop invariant. -/
theorem inv_heap_ext (H0 : Heap) (n0 rid idx : Nat) (s : LoopState) (h2 : Heap)
    (inv : LoopInv H0 n0 rid idx s)
    (hlen : s.engine.heap.length ≤ h2.length)
    (hread : ∀ b, b < s.engine.heap.length → h2.readD b = s.engine.heap.readD b) :
    LoopInv H0 n0 rid idx { s with engine := { s.engine with heap := h2 } } := by
  obtain ⟨r, hr, hm⟩ := inv.rec_ex
  refine ⟨?_, ?_, ?_, ?_, ?_, ?_, ?_, ?_, ?_, r, hr, ?_⟩
  · intro b hb
    rw [hread b (by have := inv.hlen; omega)]
    exact inv.frame b hb
  · have := inv.hlen
    dsimp only
    omega
  · exact inv.state_ge
  · have := inv.state_lt
    dsimp only
    omega
  · exact inv.log_ge
  · intro a ha
    have := inv.log_lt a ha
    dsimp only
    omega
  · exact inv.log_nodup
  · exact inv.state_notin
  · exact inv.log_idx
  · refine ⟨hm.rid_eq, hm.log_eq, hm.cur_eq, hm.status_eq, hm.error_eq, hm.state_ge, ?_, ?_, ?_, ?_⟩
    · have := hm.state_lt
      dsimp only
      omega
    · exact hm.state_notin
    · exact hm.state_ne
    · dsimp only
      rw [hread r.state hm.state_lt, hread s.stateAddr inv.state_lt]
      exact hm.content

/-- A completed loop iteration preserves the invariant. -/
theorem runStep_next_inv (H0 : Heap) (n0 rid idx : Nat) (s s1 : LoopState) (graph : Graph)
    (inv : LoopInv H0 n0 rid idx s)
    (h : runStep graph rid idx s = .next s1) :
    LoopInv H0 n0 rid (idx + 1) s1 := by
  cases hcur : s.current with
  | none => simp [runStep, hcur] at h
  | some v =>
    cases v with
    | vStr cur =>
      cases hn : graph.nodes.lookup cur with
      | none => simp [runStep, hcur, hn] at h
      | some tn =>
        cases hreg : registryGet s.engine.tool_registry tn with
        | error m2 => simp [runStep, hcur, hn, hreg] at h
        | ok tool =>
          cases hinv : invoke_tool tool s.engine.heap s.stateAddr with
          | error pr => simp [runStep, hcur, hn, hreg, hinv] at h
          | ok ivr =>
            have h2 : stepFinish graph rid idx s cur tn ivr = s1 := by
              simpa [runStep, hcur, hn, hreg, hinv] using h
            rw [← h2]
            exact stepFinish_inv H0 n0 rid idx s graph cur tn tool ivr inv hinv
    | vNull => simp [runStep, hcur] at h
    | vBool b => simp [runStep, hcur] at h
    | vInt n => simp [runStep, hcur] at h

/-- An iteration ending in an exception leaves the invariant (at the same
step index), the local log, the run store, the current node, and the
working-state address untouched. -/
theorem runStep_err_inv (H0 : Heap) (n0 rid idx : Nat) (s s1 : LoopState) (graph : Graph)
    (m : String)
    (inv : LoopInv H0 n0 rid idx s)
    (h : runStep graph rid idx s = .err s1 m) :
    LoopInv H0 n0 rid idx s1 ∧ s1.log = s.log ∧ s1.engine.runs = s.engine.runs ∧
      s1.current = s.current ∧ s1.stateAddr = s.stateAddr := by
  cases hcur : s.current with
  | none => simp [runStep, hcur] at h
  | some v =>
    cases v with
    | vStr cur =>
      cases hn : graph.nodes.lookup cur with
      | none =>
        have h2 : s = s1 := by
          simpa [runStep, hcur, hn] using congrArg (fun o => match o with
            | StepOutcome.err s2 _ => s2
            | StepOutcome.brk s2 => s2
            | StepOutcome.next s2 => s2) h
        rw [← h2]
        exact ⟨inv, rfl, rfl, hcur, rfl⟩
      | some tn =>
        cases hreg : registryGet s.engine.tool_registry tn with
        | error m2 =>
          have h2 : s = s1 := by
            simpa [runStep, hcur, hn, hreg] using congrArg (fun o => match o with
              | StepOutcome.err s2 _ => s2
              | StepOutcome.brk s2 => s2
              | StepOutcome.next s2 => s2) h
          rw [← h2]
          exact ⟨inv, rfl, rfl, hcur, rfl⟩
        | ok tool =>
          cases hinvk : invoke_tool tool s.engine.heap s.stateAddr with
          | ok ivr => simp [runStep, hcur, hn, hreg, hinvk] at h
          | error pr =>
            have h2 : ({ s with engine := { s.engine with heap := pr.1 } } : LoopState) = s1 := by
              simpa [runStep, hcur, hn, hreg, hinvk] using congrArg (fun o => match o with
                | StepOutcome.err s2 _ => s2
                | StepOutcome.brk s2 => s2
                | StepOutcome.next s2 => s2) h
            rw [← h2]
            refine ⟨?_, rfl, rfl, hcur, rfl⟩
            obtain ⟨hlen, hframe, _, _⟩ :=
              invoke_heap_facts s.engine.heap (s.engine.heap.readD s.stateAddr)
                (tool.effect (s.engine.heap.readD s.stateAddr))
            have hp1 : pr.1 = ((s.engine.heap.alloc (s.engine.heap.readD s.stateAddr)).1.alloc
                (s.engine.heap.readD s.stateAddr)).1.write (s.engine.heap.length + 1)
                (tool.effect (s.engine.heap.readD s.stateAddr)) := by
              cases hres : tool.result (s.engine.heap.readD s.stateAddr) with
              | noneRet =>
                rw [invoke_tool_noneRet_eq tool _ _ hres] at hinvk
                exact absurd hinvk (by simp)
              | selfRet =>
                rw [invoke_tool_selfRet_eq tool _ _ hres] at hinvk
                exact absurd hinvk (by simp)
              | newRet d =>
                rw [invoke_tool_newRet_eq tool _ _ d hres] at hinvk
                exact absurd hinvk (by simp)
              | raiseErr m2 =>
                rw [invoke_tool_raise_eq tool _ _ m2 hres] at hinvk
                have h3 := congrArg (fun o => match o with
                  | Except.error (pr2 : Heap × String) => pr2.1
                  | Except.ok (r2 : InvokeResult) => r2.heap) hinvk
                simpa using h3.symm
            rw [hp1]
            exact inv_heap_ext H0 n0 rid idx s _ inv (by rw [hlen]; omega)
              (fun b hb => hframe b (by omega) (by omega))
    | vNull =>
      have h2 : s = s1 := by
        simpa [runStep, hcur] using congrArg (fun o => match o with
          | StepOutcome.err s2 _ => s2
          | StepOutcome.brk s2 => s2
          | StepOutcome.next s2 => s2) h
      rw [← h2]
      exact ⟨inv, rfl, rfl, hcur, rfl⟩
    | vBool b =>
      have h2 : s = s1 := by
        simpa [runStep, hcur] using congrArg (fun o => match o with
          | StepOutcome.err s2 _ => s2
          | StepOutcome.brk s2 => s2
          | StepOutcome.next s2 => s2) h
      rw [← h2]
      exact ⟨inv, rfl, rfl, hcur, rfl⟩
    | vInt n =>
      have h2 : s = s1 := by
        simpa [runStep, hcur] using congrArg (fun o => match o with
          | StepOutcome.err s2 _ => s2
          | StepOutcome.brk s2 => s2
          | StepOutcome.next s2 => s2) h
      rw [← h2]
      exact ⟨inv, rfl, rfl, hcur, rfl⟩

/-- A break happens exactly on a null current node and changes nothing. -/
theorem runStep_brk_spec (rid idx : Nat) (s s1 : LoopState) (graph : Graph)
    (h : runStep graph rid idx s = .brk s1) : s1 = s ∧ s.current = none := by
  cases hcur : s.current with
  | none =>
    have h2 : s = s1 := by
      simpa [runStep, hcur] using congrArg (fun o => match o with
        | StepOutcome.err s2 _ => s2
        | StepOutcome.brk s2 => s2
        | StepOutcome.next s2 => s2) h
    exact ⟨h2.symm, rfl⟩
  | some v =>
    cases v with
    | vStr cur =>
      cases hn : graph.nodes.lookup cur with
      | none => simp [runStep, hcur, hn] at h
      | some tn =>
        cases hreg : registryGet s.engine.tool_registry tn with
        | error m2 => simp [runStep, hcur, hn, hreg] at h
        | ok tool =>
          cases hinvk : invoke_tool tool s.engine.heap s.stateAddr with
          | error pr => simp [runStep, hcur, hn, hreg, hinvk] at h
          | ok ivr => simp [runStep, hcur, hn, hreg, hinvk] at h
    | vNull => simp [runStep, hcur] at h
    | vBool b => simp [runStep, hcur] at h
    | vInt n => simp [runStep, hcur] at h

/-- The loop invariant is transported along completed iterations. -/
theorem loopIter_inv (H0 : Heap) (n0 rid : Nat) (graph : Graph) :
    ∀ (k idx : Nat) (s sf : LoopState), LoopInv H0 n0 rid idx s →
      loopIter graph rid k idx s = some sf → LoopInv H0 n0 rid (idx + k) sf
  | 0, idx, s, sf, hInv, hit => by
    cases hit
    exact hInv
  | k + 1, idx, s, sf, hInv, hit => by
    unfold loopIter at hit
    cases hstep : runStep graph rid idx s with
    | brk s1 => rw [hstep] at hit; cases hit
    | err s1 m => rw [hstep] at hit; cases hit
    | next s1 =>
      rw [hstep] at hit
      have hInv1 := runStep_next_inv H0 n0 rid idx s s1 graph hInv hstep
      have h3 := loopIter_inv H0 n0 rid graph k (idx + 1) s1 sf hInv1 hit
      have h4 : idx + (k + 1) = idx + 1 + k := by omega
      rw [h4]
      exact h3

/-- If the loop runs through its entire budget of iterations, the `else`
branch raises the max-steps error, at the state reached by the final
iteration. -/
theorem runLoop_exhaust (graph : Graph) (rid ms : Nat) :
    ∀ (fuel idx : Nat) (s sf : LoopState),
      loopIter graph rid fuel idx s = some sf →
      runLoop graph rid ms fuel idx s = .failed sf (maxStepsMsg ms)
  | 0, idx, s, sf, hit => by
    cases hit
    rfl
  | fuel + 1, idx, s, sf, hit => by
    unfold loopIter at hit
    cases hstep : runStep graph rid idx s with
    | brk s1 => rw [hstep] at hit; cases hit
    | err s1 m => rw [hstep] at hit; cases hit
    | next s1 =>
      rw [hstep] at hit
      unfold runLoop
      rw [hstep]
      exact runLoop_exhaust graph rid ms fuel (idx + 1) s1 sf hit

/-- If the current node becomes null while iterations remain, the loop breaks
and the run completes at that state. -/
theorem runLoop_completed_of (graph : Graph) (rid ms : Nat) :
    ∀ (n fuel idx : Nat) (s sf : LoopState),
      loopIter graph rid n idx s = some sf → sf.current = none → n < fuel →
      runLoop graph rid ms fuel idx s = .completed sf
  | 0, fuel, idx, s, sf, hit, hnone, hlt => by
    have hs : s = sf := by
      simpa [loopIter] using hit
    subst hs
    cases fuel with
    | zero => omega
    | succ fuel2 =>
      unfold runLoop
      have hbrk : runStep graph rid idx s = .brk s := by
        unfold runStep
        rw [hnone]
      rw [hbrk]
  | n + 1, fuel, idx, s, sf, hit, hnone, hlt => by
    unfold loopIter at hit
    cases hstep : runStep graph rid idx s with
    | brk s1 => rw [hstep] at hit; cases hit
    | err s1 m => rw [hstep] at hit; cases hit
    | next s1 =>
      rw [hstep] at hit
      cases fuel with
      | zero => omega
      | succ fuel2 =>
        unfold runLoop
        rw [hstep]
        exact runLoop_completed_of graph rid ms n fuel2 (idx + 1) s1 sf hit hnone (by omega)

/-- If an iteration raises while iterations remain, the loop fails with that
exception at that state. -/
theorem runLoop_err_of (graph : Graph) (rid ms : Nat) :
    ∀ (n fuel idx : Nat) (s sm s1 : LoopState) (m : String),
      loopIter graph rid n idx s = some sm →
      runStep graph rid (idx + n) sm = .err s1 m → n < fuel →
      runLoop graph rid ms fuel idx s = .failed s1 m
  | 0, fuel, idx, s, sm, s1, m, hit, herr, hlt => by
    have hs : s = sm := by
      simpa [loopIter] using hit
    subst hs
    cases fuel with
    | zero => omega
    | succ fuel2 =>
      unfold runLoop
      rw [Nat.add_zero] at herr
      rw [herr]
  | n + 1, fuel, idx, s, sm, s1, m, hit, herr, hlt => by
    unfold loopIter at hit
    cases hstep : runStep graph rid idx s with
    | brk s2 => rw [hstep] at hit; cases hit
    | err s2 m2 => rw [hstep] at hit; cases hit
    | next s2 =>
      rw [hstep] at hit
      cases fuel with
      | zero => omega
      | succ fuel2 =>
        unfold runLoop
        rw [hstep]
        exact runLoop_err_of graph rid ms n fuel2 (idx + 1) s2 sm s1 m hit
          (by rw [show idx + 1 + n = idx + (n + 1) by omega]; exact herr) (by omega)

/-- Characterization of a completed loop: some prefix of `n < fuel`
iterations ran, after which the current node was null and the loop broke,
returning exactly the state after those iterations. -/
theorem runLoop_completed_spec (graph : Graph) (rid ms : Nat) :
    ∀ (fuel idx : Nat) (s sf : LoopState),
      runLoop graph rid ms fuel idx s = .completed sf →
      ∃ n, n < fuel ∧ loopIter graph rid n idx s = some sf ∧ sf.current = none
  | 0, idx, s, sf, h => by cases h
  | fuel + 1, idx, s, sf, h => by
    unfold runLoop at h
    cases hstep : runStep graph rid idx s with
    | brk s1 =>
      rw [hstep] at h
      cases h
      obtain ⟨hs1, hcur⟩ := runStep_brk_spec rid idx s sf graph hstep
      exact ⟨0, by omega, by rw [loopIter, hs1], by rw [← hs1] at hcur; exact hcur⟩
    | err s1 m => rw [hstep] at h; cases h
    | next s1 =>
      rw [hstep] at h
      obtain ⟨n, hn, hit, hcur⟩ := runLoop_completed_spec graph rid ms fuel (idx + 1) s1 sf h
      exact ⟨n + 1, by omega, by unfold loopIter; rw [hstep]; exact hit, hcur⟩

/-- Characterization of a failed loop: either the budget was exhausted after
exactly `fuel` iterations (max-steps error), or some earlier iteration
raised. -/
theorem runLoop_failed_spec (graph : Graph) (rid ms : Nat) :
    ∀ (fuel idx : Nat) (s sf : LoopState) (msg : String),
      runLoop graph rid ms fuel idx s = .failed sf msg →
      (loopIter graph rid fuel idx s = some sf ∧ msg = maxStepsMsg ms) ∨
      (∃ n sm, n < fuel ∧ loopIter graph rid n idx s = some sm ∧
        runStep graph rid (idx + n) sm = .err sf msg)
  | 0, idx, s, sf, msg, h => by
    cases h
    exact Or.inl ⟨rfl, rfl⟩
  | fuel + 1, idx, s, sf, msg, h => by
    unfold runLoop at h
    cases hstep : runStep graph rid idx s with
    | brk s1 => rw [hstep] at h; cases h
    | err s1 m =>
      rw [hstep] at h
      cases h
      exact Or.inr ⟨0, s, by omega, rfl, by rw [Nat.add_zero]; exact hstep⟩
    | next s1 =>
      rw [hstep] at h
      rcases runLoop_failed_spec graph rid ms fuel (idx + 1) s1 sf msg h with
        ⟨hit, hmsg⟩ | ⟨n, sm, hn, hit, herr⟩
      · exact Or.inl ⟨by unfold loopIter; rw [hstep]; exact hit, hmsg⟩
      · exact Or.inr ⟨n + 1, sm, by omega, by unfold loopIter; rw [hstep]; exact hit,
          by rw [show idx + (n + 1) = idx + 1 + n by omega]; exact herr⟩

theorem initRun_rid (e : GraphEngine) (graph : Graph) (a0 : Nat) :
    (initRun e graph a0).2.1 = e.next_id := rfl

theorem initRun_s0_engine (e : GraphEngine) (graph : Graph) (a0 : Nat) :
    (initRun e graph a0).2.2.engine = (initRun e graph a0).1 := rfl

theorem initRun_s0_log (e : GraphEngine) (graph : Graph) (a0 : Nat) :
    (initRun e graph a0).2.2.log = [] := rfl

theorem initRun_s0_current (e : GraphEngine) (graph : Graph) (a0 : Nat) :
    (initRun e graph a0).2.2.current = some (.vStr graph.start_node_id) := rfl

theorem initRun_s0_stateAddr (e : GraphEngine) (graph : Graph) (a0 : Nat) :
    (initRun e graph a0).2.2.stateAddr = e.heap.length := rfl

theorem initRun_runs (e : GraphEngine) (graph : Graph) (a0 : Nat) :
    (initRun e graph a0).1.runs =
      storeAssign e.runs e.next_id
        { id := e.next_id
          graph_id := graph.id
          state := (e.heap.alloc (e.heap.readD a0)).1.length
          current_node_id := some (.vStr graph.start_node_id)
          log := []
          status := "running"
          error := none } := rfl

/-- Starting a run establishes the loop invariant: the record is stored with
status running, the start node as current node, an empty log, and a fresh
copy of the caller's initial state. -/
theorem initRun_inv (e : GraphEngine) (graph : Graph) (a0 : Nat) :
    LoopInv e.heap e.heap.length (initRun e graph a0).2.1 0 (initRun e graph a0).2.2 := by
  have hlen1 : (e.heap.alloc (e.heap.readD a0)).1.length = e.heap.length + 1 :=
    Heap.length_alloc _ _
  have hlen2 : (initRun e graph a0).2.2.engine.heap.length = e.heap.length + 2 := by
    show ((e.heap.alloc (e.heap.readD a0)).1.alloc _).1.length = e.heap.length + 2
    rw [Heap.length_alloc, hlen1]
  refine ⟨?_, ?_, ?_, ?_, ?_, ?_, ?_, ?_, ?_, ?_⟩
  · intro b hb
    show (((e.heap.alloc (e.heap.readD a0)).1.alloc _).1).readD b = e.heap.readD b
    rw [Heap.readD_alloc_ne _ _ _ (by rw [hlen1]; omega),
      Heap.readD_alloc_ne _ _ _ (by omega)]
  · rw [hlen2]; omega
  · exact le_refl _
  · rw [initRun_s0_stateAddr, hlen2]; omega
  · intro a ha
    simp [initRun_s0_log, logAddrs] at ha
  · intro a ha
    simp [initRun_s0_log, logAddrs] at ha
  · rw [initRun_s0_log]
    simp [logAddrs]
  · rw [initRun_s0_log]
    simp [logAddrs]
  · rw [initRun_s0_log]
    simp
  · refine ⟨(⟨e.next_id, graph.id, (e.heap.alloc (e.heap.readD a0)).1.length,
        some (.vStr graph.start_node_id), [], "running", none⟩ : RunRecord), ?_, ?_⟩
    · rw [initRun_s0_engine, initRun_runs, initRun_rid]
      exact lookup_storeAssign_self _ _ _
    · refine ⟨rfl, rfl, rfl, rfl, rfl, ?_, ?_, ?_, ?_, ?_⟩
      · dsimp only
        rw [hlen1]
        omega
      · dsimp only
        rw [hlen1, hlen2]
        omega
      · rw [initRun_s0_log]
        simp [logAddrs]
      · dsimp only
        rw [initRun_s0_stateAddr, hlen1]
        omega
      · dsimp only
        rw [initRun_s0_stateAddr]
        show (((e.heap.alloc (e.heap.readD a0)).1.alloc
            ((e.heap.alloc (e.heap.readD a0)).1.readD (e.heap.alloc (e.heap.readD a0)).2)).1).readD
            (e.heap.alloc (e.heap.readD a0)).1.length = _
        rw [Heap.readD_alloc_self]
        show (e.heap.alloc (e.heap.readD a0)).1.readD e.heap.length =
          ((e.heap.alloc (e.heap.readD a0)).1.alloc
            ((e.heap.alloc (e.heap.readD a0)).1.readD (e.heap.alloc (e.heap.readD a0)).2)).1.readD
            e.heap.length
        exact (Heap.readD_alloc_ne (e.heap.alloc (e.heap.readD a0)).1 _ e.heap.length
          (by rw [hlen1]; omega)).symm

theorem run_graph_notfound (e : GraphEngine) (gid a0 ms : Nat)
    (hg : e.graphs.lookup gid = none) :
    run_graph e gid a0 ms = (e, .error (keyErrorStr (toString gid))) := by
  simp only [run_graph, hg]

theorem run_graph_completed_eq (e : GraphEngine) (gid a0 ms : Nat) (graph : Graph)
    (sf : LoopState)
    (hg : e.graphs.lookup gid = some graph)
    (hloop : runLoop graph (initRun e graph a0).2.1 ms ms 0 (initRun e graph a0).2.2 =
      .completed sf) :
    run_graph e gid a0 ms =
      ({ sf.engine with runs := (updateRun sf.engine.runs (initRun e graph a0).2.1
          (fun r => { r with status := "completed" })) },
       .ok ((initRun e graph a0).2.1, sf.stateAddr, sf.log)) := by
  simp only [run_graph, hg, hloop]

theorem run_graph_failed_eq (e : GraphEngine) (gid a0 ms : Nat) (graph : Graph)
    (sf : LoopState) (msg : String)
    (hg : e.graphs.lookup gid = some graph)
    (hloop : runLoop graph (initRun e graph a0).2.1 ms ms 0 (initRun e graph a0).2.2 =
      .failed sf msg) :
    run_graph e gid a0 ms =
      ({ sf.engine with runs := (updateRun sf.engine.runs (initRun e graph a0).2.1
          (fun r => { r with status := "failed", error := some msg })) },
       .error msg) := by
  simp only [run_graph, hg, hloop]

theorem get_run_state_eq (e : GraphEngine) (rid : Nat) (r : RunRecord)
    (h : e.runs.lookup rid = some r) :
    get_run_state e rid =
      .ok ⟨r.id, r.graph_id, r.status, r.current_node_id, r.state, r.log, r.error⟩ := by
  simp only [get_run_state, h]

theorem get_run_state_notfound (e : GraphEngine) (rid : Nat)
    (h : e.runs.lookup rid = none) :
    get_run_state e rid = .error (keyErrorStr (toString rid)) := by
  simp only [get_run_state, h]

/-- The invariant holds at the final state of a failed loop. -/
theorem run_graph_failed_inv (e : GraphEngine) (a0 ms : Nat) (graph : Graph)
    (sf : LoopState) (msg : String)
    (hloop : runLoop graph (initRun e graph a0).2.1 ms ms 0 (initRun e graph a0).2.2 =
      .failed sf msg) :
    ∃ k, LoopInv e.heap e.heap.length e.next_id k sf := by
  have hInv0 := initRun_inv e graph a0
  rw [initRun_rid] at hInv0
  rw [initRun_rid] at hloop
  rcases runLoop_failed_spec graph e.next_id ms ms 0 (initRun e graph a0).2.2 sf msg hloop with
    ⟨hit, _⟩ | ⟨n, sm, _, hit, herr⟩
  · exact ⟨0 + ms, loopIter_inv e.heap e.heap.length e.next_id graph ms 0 _ sf hInv0 hit⟩
  · have hInvm := loopIter_inv e.heap e.heap.length e.next_id graph n 0 _ sm hInv0 hit
    exact ⟨0 + n, (runStep_err_inv e.heap e.heap.length e.next_id (0 + n) sm sf graph msg
      hInvm herr).1⟩

/-- The invariant holds at the final state of a completed loop, whose current
node is null and which ran fewer than `ms` iterations. -/
theorem run_graph_completed_inv (e : GraphEngine) (a0 ms : Nat) (graph : Graph)
    (sf : LoopState)
    (hloop : runLoop graph (initRun e graph a0).2.1 ms ms 0 (initRun e graph a0).2.2 =
      .completed sf) :
    ∃ k, k < ms ∧ LoopInv e.heap e.heap.length e.next_id k sf ∧ sf.current = none := by
  have hInv0 := initRun_inv e graph a0
  rw [initRun_rid] at hInv0
  rw [initRun_rid] at hloop
  obtain ⟨n, hn, hit, hcur⟩ :=
    runLoop_completed_spec graph e.next_id ms ms 0 (initRun e graph a0).2.2 sf hloop
  refine ⟨n, hn, ?_, hcur⟩
  have := loopIter_inv e.heap e.heap.length e.next_id graph n 0 _ sf hInv0 hit
  simpa using this

theorem Heap.readD_oob (h : Heap) (a : Nat) (ha : h.length ≤ a) : h.readD a = [] := by
  simp only [Heap.readD, List.getD_eq_getElem?_getD]
  rw [List.getElem?_eq_none (by simpa using ha)]
  rfl

/-- Allocating a copy of the cell at `a` does not change what `a`
dereferences to, whether or not `a` is a valid address. -/
theorem Heap.readD_alloc_dup (h : Heap) (a : Nat) :
    (h.alloc (h.readD a)).1.readD a = h.readD a := by
  by_cases ha : a = h.length
  · rw [ha]
    exact Heap.readD_alloc_self h _
  · exact Heap.readD_alloc_ne h _ a ha

/-- Popping a key removes every trace of it. -/
theorem dictMem_dictPop (k : String) (d : StateDoc) :
    dictMem k (dictPop k d) = false := by
  simp only [dictMem, dictPop, List.any_eq_true, not_exists]
  rw [Bool.eq_false_iff]
  intro hc
  rw [List.any_eq_true] at hc
  obtain ⟨p, hp, hpk⟩ := hc
  rw [List.mem_filter] at hp
  have h1 : (p.1 != k) = true := hp.2
  rw [bne_iff_ne] at h1
  exact h1 (by simpa using hpk)

/-- Dict membership on an empty document is false. -/
theorem dictMem_nil (k : String) : dictMem k [] = false := rfl

/-! Concrete fixtures used by the executable witnesses and counterexamples. -/

/-- A tool that mutates nothing and returns the None sentinel. -/
def idTool : Tool := ⟨fun d => d, fun _ => .noneRet⟩

/-- A tool that writes the control key pointing back at node a and returns
the dict it received (tools in the source mutate and `return state`). -/
def selfLoopTool : Tool := ⟨fun d => dictSet d "_next_node" (.vStr "a"), fun _ => .selfRet⟩

/-- A single-node graph: node a runs tool t; its static edge is null. -/
def g1 : Graph := ⟨0, "g", "a", [("a", "t")], [("a", none)]⟩

/-- Engine fixture whose single graph loops forever via the control key. -/
def engine_selfloop : GraphEngine := ⟨[("t", selfLoopTool)], [(0, g1)], [], ⟨[[]]⟩, 1⟩

/-- Engine fixture whose single graph terminates after one step; the caller's
initial state lives at heap address 0. -/
def engine_id : GraphEngine := ⟨[("t", idTool)], [(0, g1)], [], ⟨[[("k", .vStr "v")]]⟩, 1⟩

/-- Claim C3: for a single-node graph whose tool always sets the control key
to that node's own id, a run with max_steps = 5 fails with the RunFailure
(max-steps) error exactly when step_index reaches 5: the run raises, the
stored record is failed with that error, its current node is still the
looping node, and the log holds exactly the 5 steps 0..4 at the moment of
failure. -/
theorem C3_selfloop_budget :
    (run_graph engine_selfloop 0 0 5).2 = .error (maxStepsMsg 5) ∧
    ((run_graph engine_selfloop 0 0 5).1.runs.lookup 1).map (fun r => r.status) =
      some "failed" ∧
    ((run_graph engine_selfloop 0 0 5).1.runs.lookup 1).map (fun r => r.error) =
      some (some (maxStepsMsg 5)) ∧
    ((run_graph engine_selfloop 0 0 5).1.runs.lookup 1).map (fun r => r.log.length) =
      some 5 ∧
    ((run_graph engine_selfloop 0 0 5).1.runs.lookup 1).map
      (fun r => r.log.map (fun st => st.step_index)) = some [0, 1, 2, 3, 4] ∧
    ((run_graph engine_selfloop 0 0 5).1.runs.lookup 1).map (fun r => r.current_node_id) =
      some (some (.vStr "a")) := by
  exact ⟨rfl, rfl, rfl, rfl, rfl, rfl⟩

/-- Claim C1, counterexample: with max_steps = 1 and a single node whose
static edge is null, the terminal node is reached on the final allowed
iteration, so current_node becomes null — yet the `for`/`else` still raises
the max-steps error because no break occurred.  The claim's assertion that
the max-steps failure happens exactly when current_node is still non-null is
therefore false: here the run fails although the stored current node is
null. -/
theorem C1_counterexample :
    (run_graph engine_id 0 0 1).2 = .error (maxStepsMsg 1) ∧
    ((run_graph engine_id 0 0 1).1.runs.lookup 1).map (fun r => r.status) = some "failed" ∧
    ((run_graph engine_id 0 0 1).1.runs.lookup 1).map (fun r => r.current_node_id) =
      some none ∧
    ((run_graph engine_id 0 0 1).1.runs.lookup 1).map (fun r => r.log.length) = some 1 := by
  exact ⟨rfl, rfl, rfl, rfl⟩

/-- Claim C1, amended: for every run of a stored graph, (i) if the loop
completes all max_steps iterations (regardless of whether current_node
became null on the final step), the run fails with the max-steps error and
the stored record is failed with that error; (ii) if current_node becomes
null after n < max_steps steps, the run completes and run_graph returns
(run_id, final_state, log) to the caller, with the record marked completed;
(iii) conversely, every successful return arises this way, with fewer than
max_steps executed steps and a null final current node. -/
theorem C1_amended (e : GraphEngine) (gid a0 ms : Nat) (graph : Graph)
    (hg : e.graphs.lookup gid = some graph) :
    (∀ sf, loopIter graph (initRun e graph a0).2.1 ms 0 (initRun e graph a0).2.2 = some sf →
       (run_graph e gid a0 ms).2 = .error (maxStepsMsg ms) ∧
       ∃ r, (run_graph e gid a0 ms).1.runs.lookup (initRun e graph a0).2.1 = some r ∧
         r.status = "failed" ∧ r.error = some (maxStepsMsg ms)) ∧
    (∀ n sf, n < ms →
       loopIter graph (initRun e graph a0).2.1 n 0 (initRun e graph a0).2.2 = some sf →
       sf.current = none →
       (run_graph e gid a0 ms).2 = .ok ((initRun e graph a0).2.1, sf.stateAddr, sf.log) ∧
       ∃ r, (run_graph e gid a0 ms).1.runs.lookup (initRun e graph a0).2.1 = some r ∧
         r.status = "completed") ∧
    (∀ e2 tr, run_graph e gid a0 ms = (e2, .ok tr) →
       ∃ n sf, n < ms ∧ sf.current = none ∧
         tr = ((initRun e graph a0).2.1, sf.stateAddr, sf.log) ∧ sf.log.length = n ∧
         loopIter graph (initRun e graph a0).2.1 n 0 (initRun e graph a0).2.2 = some sf) := by
  refine ⟨?_, ?_, ?_⟩
  · intro sf hit
    have hloop := runLoop_exhaust graph (initRun e graph a0).2.1 ms ms 0
      (initRun e graph a0).2.2 sf hit
    have heq := run_graph_failed_eq e gid a0 ms graph sf (maxStepsMsg ms) hg hloop
    obtain ⟨k, hInv⟩ := run_graph_failed_inv e a0 ms graph sf (maxStepsMsg ms) hloop
    obtain ⟨r0, hr0, hm⟩ := hInv.rec_ex
    rw [heq]
    refine ⟨rfl, { r0 with status := "failed", error := some (maxStepsMsg ms) }, ?_, rfl, rfl⟩
    dsimp only
    rw [initRun_rid, lookup_updateRun_self, hr0]
    rfl
  · intro n sf hn hit hcur
    have hloop := runLoop_completed_of graph (initRun e graph a0).2.1 ms n ms 0
      (initRun e graph a0).2.2 sf hit hcur hn
    have heq := run_graph_completed_eq e gid a0 ms graph sf hg hloop
    obtain ⟨k, hk, hInv, _⟩ := run_graph_completed_inv e a0 ms graph sf hloop
    obtain ⟨r0, hr0, hm⟩ := hInv.rec_ex
    rw [heq]
    refine ⟨rfl, { r0 with status := "completed" }, ?_, rfl⟩
    dsimp only
    rw [initRun_rid, lookup_updateRun_self, hr0]
    rfl
  · intro e2 tr hrun
    cases hloop : runLoop graph (initRun e graph a0).2.1 ms ms 0 (initRun e graph a0).2.2 with
    | failed sf msg =>
      have heq := run_graph_failed_eq e gid a0 ms graph sf msg hg hloop
      rw [heq] at hrun
      injection hrun with h1 h2
      cases h2
    | completed sf =>
      have heq := run_graph_completed_eq e gid a0 ms graph sf hg hloop
      rw [heq] at hrun
      injection hrun with h1 h2
      injection h2 with h3
      obtain ⟨n, hn, hit, hcur⟩ := runLoop_completed_spec graph (initRun e graph a0).2.1
        ms ms 0 (initRun e graph a0).2.2 sf hloop
      have hInv0 := initRun_inv e graph a0
      have hInv := loopIter_inv e.heap e.heap.length (initRun e graph a0).2.1 graph n 0
        (initRun e graph a0).2.2 sf (by rw [initRun_rid]; rw [initRun_rid] at hInv0; exact hInv0)
        hit
      have hlen : sf.log.length = n := by
        have h4 := congrArg List.length hInv.log_idx
        simpa using h4
      exact ⟨n, sf, hn, hcur, h3.symm, hlen, hit⟩

/-- Claim C1, witness. -/
theorem C1_amended_witness :
    (run_graph engine_id 0 0 1).2 = .error (maxStepsMsg 1) :=
  ((C1_amended engine_id 0 0 1 g1 rfl).1 _ rfl).1

/-- If a document contains a key it is nonempty, hence its address is a
valid heap address. -/
theorem dictMem_readD_lt (h : Heap) (a : Nat) (k : String)
    (hmem : dictMem k (h.readD a) = true) : a < h.length := by
  by_contra hc
  rw [Heap.readD_oob h a (by omega)] at hmem
  exact absurd hmem (by simp [dictMem])

/-- After any completed loop iteration the working state no longer contains
the reserved control key: either it was popped, or it was never there. -/
theorem stepFinish_no_control_key (graph : Graph) (rid idx : Nat) (s : LoopState)
    (cur tn : String) (ivr : InvokeResult) :
    dictMem "_next_node" ((stepFinish graph rid idx s cur tn ivr).engine.heap.readD
      (stepFinish graph rid idx s cur tn ivr).stateAddr) = false := by
  rw [stepFinish_stateAddr, stepFinish_engine_heap, Heap.readD_alloc_dup]
  cases hmem : dictMem "_next_node"
      ((ivr.heap.alloc (ivr.heap.readD ivr.stateAddr)).1.readD ivr.stateAddr) with
  | false =>
    rw [resolve_next_nomem _ _ _ _ hmem]
    exact hmem
  | true =>
    rw [resolve_next_mem _ _ _ _ hmem]
    have hlt := dictMem_readD_lt _ _ _ hmem
    rw [Heap.readD_write_self _ _ _ hlt]
    exact dictMem_dictPop _ _

/-- Claim C2: at every step, if the reserved control key is present in the
working state after the tool invocation — whatever its value, null included —
the next node is that value (null meaning terminal) and the key is removed
from the working state before the next step; otherwise the next node is the
static edge entry for the current node, null when absent.  The final clause
states the removal guarantee at the level of the loop body: after any
completed iteration the working state holds no control key. -/
theorem C2_control_key_resolution (graph : Graph) (cur : String) (h : Heap) (a : Nat) :
    (dictMem "_next_node" (h.readD a) = true →
       (resolve_next graph cur h a).2 =
         optOfVal (dictGetD "_next_node" (h.readD a) .vNull) ∧
       dictMem "_next_node" ((resolve_next graph cur h a).1.readD a) = false) ∧
    (dictMem "_next_node" (h.readD a) = false →
       (resolve_next graph cur h a).2 =
         ((graph.edges.lookup cur).getD none).map Val.vStr ∧
       (resolve_next graph cur h a).1 = h) ∧
    (∀ rid idx s s1, runStep graph rid idx s = .next s1 →
       dictMem "_next_node" (s1.engine.heap.readD s1.stateAddr) = false) := by
  refine ⟨?_, ?_, ?_⟩
  · intro hmem
    rw [resolve_next_mem graph cur h a hmem]
    refine ⟨rfl, ?_⟩
    have hlt := dictMem_readD_lt h a _ hmem
    rw [Heap.readD_write_self _ _ _ hlt]
    exact dictMem_dictPop _ _
  · intro hmem
    rw [resolve_next_nomem graph cur h a hmem]
    exact ⟨rfl, rfl⟩
  · intro rid idx s s1 hstep
    cases hcur : s.current with
    | none => simp [runStep, hcur] at hstep
    | some v =>
      cases v with
      | vStr cur2 =>
        cases hn : graph.nodes.lookup cur2 with
        | none => simp [runStep, hcur, hn] at hstep
        | some tn =>
          cases hreg : registryGet s.engine.tool_registry tn with
          | error m2 => simp [runStep, hcur, hn, hreg] at hstep
          | ok tool =>
            cases hinvk : invoke_tool tool s.engine.heap s.stateAddr with
            | error pr => simp [runStep, hcur, hn, hreg, hinvk] at hstep
            | ok ivr =>
              have h2 : stepFinish graph rid idx s cur2 tn ivr = s1 := by
                simpa [runStep, hcur, hn, hreg, hinvk] using hstep
              rw [← h2]
              exact stepFinish_no_control_key graph rid idx s cur2 tn ivr
      | vNull => simp [runStep, hcur] at hstep
      | vBool b => simp [runStep, hcur] at hstep
      | vInt n => simp [runStep, hcur] at hstep

/-- Claim C2, witness. -/
theorem C2_witness :
    (resolve_next g1 "a" ⟨[[("_next_node", .vStr "b")]]⟩ 0).2 = some (.vStr "b") ∧
    dictMem "_next_node"
      ((resolve_next g1 "a" ⟨[[("_next_node", .vStr "b")]]⟩ 0).1.readD 0) = false := by
  have h2 := (C2_control_key_resolution g1 "a" ⟨[[("_next_node", .vStr "b")]]⟩ 0).1 rfl
  exact ⟨h2.1, h2.2⟩

/-- Claim C5: every step invokes the tool on a deep copy of the working
state: the argument cell is fresh (distinct from the working state's
address) and carries the working document.  If the tool returns the None
sentinel the working state afterwards is the same dict with the same
content, whatever in-place mutation (`effect`) the tool performed on the
dict it received; if the tool returns a document (the mutated argument or a
newly built dict), that document becomes the working state. -/
theorem C5_tool_copy_sentinel (t : Tool) (h : Heap) (a : Nat) (ha : a < h.length) :
    (∀ ivr, invoke_tool t h a = .ok ivr →
       ivr.argAddr = h.length + 1 ∧ ivr.argAddr ≠ a ∧
       ivr.heap.readD ivr.argAddr = t.effect (h.readD a)) ∧
    (t.result (h.readD a) = .noneRet →
       ∃ ivr, invoke_tool t h a = .ok ivr ∧ ivr.stateAddr = a ∧
         ivr.heap.readD a = h.readD a) ∧
    (t.result (h.readD a) = .selfRet →
       ∃ ivr, invoke_tool t h a = .ok ivr ∧
         ivr.heap.readD ivr.stateAddr = t.effect (h.readD a)) ∧
    (∀ d, t.result (h.readD a) = .newRet d →
       ∃ ivr, invoke_tool t h a = .ok ivr ∧ ivr.heap.readD ivr.stateAddr = d) := by
  obtain ⟨hlen, hframe, hread_n, hread_n1⟩ :=
    invoke_heap_facts h (h.readD a) (t.effect (h.readD a))
  refine ⟨?_, ?_, ?_, ?_⟩
  · intro ivr hok
    cases hres : t.result (h.readD a) with
    | noneRet =>
      rw [invoke_tool_noneRet_eq t h a hres] at hok
      cases hok
      dsimp only
      exact ⟨rfl, by omega, hread_n1⟩
    | selfRet =>
      rw [invoke_tool_selfRet_eq t h a hres] at hok
      cases hok
      dsimp only
      exact ⟨rfl, by omega, hread_n1⟩
    | newRet d =>
      rw [invoke_tool_newRet_eq t h a d hres] at hok
      cases hok
      dsimp only
      refine ⟨rfl, by omega, ?_⟩
      rw [Heap.readD_alloc_ne _ _ _ (by rw [hlen]; omega)]
      exact hread_n1
    | raiseErr m =>
      rw [invoke_tool_raise_eq t h a m hres] at hok
      exact absurd hok (by simp)
  · intro hres
    refine ⟨_, invoke_tool_noneRet_eq t h a hres, rfl, ?_⟩
    exact hframe a (by omega) (by omega)
  · intro hres
    refine ⟨_, invoke_tool_selfRet_eq t h a hres, ?_⟩
    exact hread_n1
  · intro d hres
    refine ⟨_, invoke_tool_newRet_eq t h a d hres, ?_⟩
    dsimp only
    have h2 := Heap.readD_alloc_self
      (((h.alloc (h.readD a)).1.alloc (h.readD a)).1.write (h.length + 1)
        (t.effect (h.readD a))) d
    rw [hlen] at h2
    exact h2

/-- Claim C5, witness: a tool that mutates the dict it received in place and
returns None does not change the working state. -/
theorem C5_witness :
    0 < Heap.length ⟨[[("k", .vStr "v")]]⟩ ∧
    ∃ ivr, invoke_tool ⟨fun d => dictSet d "k" (.vStr "smashed"), fun _ => .noneRet⟩
        ⟨[[("k", .vStr "v")]]⟩ 0 = .ok ivr ∧
      ivr.stateAddr = 0 ∧ ivr.heap.readD 0 = Heap.readD ⟨[[("k", .vStr "v")]]⟩ 0 := by
  refine ⟨by decide, ?_⟩
  exact (C5_tool_copy_sentinel ⟨fun d => dictSet d "k" (.vStr "smashed"), fun _ => .noneRet⟩
    ⟨[[("k", .vStr "v")]]⟩ 0 (by decide)).2.1 rfl

/-- Edge validation succeeds exactly when every edge source is a declared
node id and every non-null edge target is a declared node id. -/
theorem validateEdges_none_iff (ids : List String) :
    ∀ l : List (String × Option String),
      validateEdges ids l = none ↔
        ∀ p ∈ l, ids.contains p.1 = true ∧ ∀ d, p.2 = some d → ids.contains d = true
  | [] => by simp [validateEdges]
  | (src, dst) :: rest => by
    cases hsrc : ids.contains src with
    | false =>
      simp only [validateEdges, hsrc]
      constructor
      · intro hc
        cases hc
      · intro hall
        have := (hall (src, dst) (by simp)).1
        rw [hsrc] at this
        cases this
    | true =>
      cases dst with
      | none =>
        simp only [validateEdges, hsrc]
        rw [validateEdges_none_iff ids rest]
        constructor
        · intro hall p hp
          rcases List.mem_cons.mp hp with hp | hp
          · cases hp
            exact ⟨hsrc, by simp⟩
          · exact hall p hp
        · intro hall p hp
          exact hall p (by simp [hp])
      | some d =>
        cases hd : ids.contains d with
        | false =>
          simp only [validateEdges, hsrc, hd]
          constructor
          · intro hc
            cases hc
          · intro hall
            have := (hall (src, some d) (by simp)).2 d rfl
            rw [hd] at this
            cases this
        | true =>
          simp only [validateEdges, hsrc, hd]
          rw [validateEdges_none_iff ids rest]
          constructor
          · intro hall p hp
            rcases List.mem_cons.mp hp with hp | hp
            · cases hp
              refine ⟨hsrc, ?_⟩
              intro d2 hd2
              cases hd2
              exact hd
            · exact hall p hp
          · intro hall p hp
            exact hall p (by simp [hp])

/-- A key strictly above every key of the store is absent from it. -/
theorem lookup_none_of_keys_lt {α : Type} :
    ∀ (m : List (Nat × α)) (k : Nat), (∀ j ∈ m.map Prod.fst, j < k) → m.lookup k = none
  | [], k, _ => rfl
  | p :: m, k, hall => by
    have hp : p.1 < k := hall p.1 (by simp)
    have hk : (k == p.1) = false := beq_false_of_ne (by omega)
    simp only [List.lookup, hk]
    exact lookup_none_of_keys_lt m k (fun j hj => hall j (by simp [hj]))

/-- Claim C4: create_graph fails with a ValidationError (ValueError) if and
only if the start node id is not a declared node id, or some edge source is
undeclared, or some non-null edge target is undeclared; on success it
assigns the fresh id drawn from the engine's id source and stores the
definition built from the request, leaving every other stored graph
untouched. -/
theorem C4_create_graph (e : GraphEngine) (req : GraphCreateRequest) :
    ((∃ m, (create_graph e req).2 = .error m) ↔
      ((req.nodes.map fun n => n.id).contains req.start_node_id = false ∨
       ∃ p ∈ req.edges, (req.nodes.map fun n => n.id).contains p.1 = false ∨
         ∃ d, p.2 = some d ∧ (req.nodes.map fun n => n.id).contains d = false)) ∧
    (∀ gid, (create_graph e req).2 = .ok gid →
       gid = e.next_id ∧
       (create_graph e req).1.graphs.lookup gid =
         some ⟨gid, req.name, req.start_node_id, buildNodes req.nodes, req.edges⟩ ∧
       (∀ j, j ≠ gid → (create_graph e req).1.graphs.lookup j = e.graphs.lookup j) ∧
       ((∀ j ∈ e.graphs.map Prod.fst, j < e.next_id) → e.graphs.lookup gid = none)) := by
  cases hstart : (req.nodes.map fun n => n.id).contains req.start_node_id with
  | false =>
    constructor
    · simp only [create_graph, hstart]
      exact ⟨fun _ => Or.inl trivial, fun _ => ⟨_, rfl⟩⟩
    · intro gid hok
      simp only [create_graph, hstart] at hok
      cases hok
  | true =>
    cases hval : validateEdges (req.nodes.map fun n => n.id) req.edges with
    | some msg =>
      constructor
      · simp only [create_graph, hstart, hval]
        refine ⟨fun _ => Or.inr ?_, fun _ => ⟨msg, rfl⟩⟩
        by_contra hc
        push_neg at hc
        have hnone : validateEdges (req.nodes.map fun n => n.id) req.edges = none := by
          rw [validateEdges_none_iff]
          intro p hp
          obtain ⟨h1, h2⟩ := hc p hp
          refine ⟨by simpa using h1, ?_⟩
          intro d hd
          have := h2 d hd
          simpa using this
        rw [hval] at hnone
        cases hnone
      · intro gid hok
        simp only [create_graph, hstart, hval] at hok
        cases hok
    | none =>
      constructor
      · simp only [create_graph, hstart, hval]
        constructor
        · intro ⟨m, hm⟩
          cases hm
        · intro hc
          exfalso
          rcases hc with hc | ⟨p, hp, hc⟩
          · cases hc
          · have := (validateEdges_none_iff (req.nodes.map fun n => n.id) req.edges).mp
              hval p hp
            rcases hc with hc | ⟨d, hd, hc⟩
            · rw [this.1] at hc
              cases hc
            · rw [this.2 d hd] at hc
              cases hc
      · intro gid hok
        simp only [create_graph, hstart, hval] at hok
        have hgid : gid = e.next_id := by
          cases hok
          rfl
        subst hgid
        refine ⟨rfl, ?_, ?_, fun hwf => lookup_none_of_keys_lt e.graphs e.next_id hwf⟩
        · simp only [create_graph, hstart, hval]
          exact lookup_storeAssign_self _ _ _
        · intro j hj
          simp only [create_graph, hstart, hval]
          exact lookup_storeAssign_ne _ _ _ _ hj

/-- Claim C4, witness: a request whose start node is missing from its nodes
is rejected, and a well-formed one-node request is stored under the fresh
id. -/
theorem C4_witness :
    (∃ m, (create_graph engine_id ⟨"g2", "zz", [⟨"a", "t"⟩], []⟩).2 = .error m) ∧
    (create_graph engine_id ⟨"g2", "a", [⟨"a", "t"⟩], []⟩).1.graphs.lookup 1 =
      some ⟨1, "g2", "a", [("a", "t")], []⟩ := by
  constructor
  · exact (C4_create_graph engine_id ⟨"g2", "zz", [⟨"a", "t"⟩], []⟩).1.mpr
      (Or.inl (by decide))
  · have h2 := ((C4_create_graph engine_id ⟨"g2", "a", [⟨"a", "t"⟩], []⟩).2 1 rfl).2.1
    exact h2

/-- Claim C6: whenever run_graph raises (tool or resolution failure, or
step-budget exhaustion), the stored RunRecord ends failed with that error
message and the log of exactly the steps completed before the failure
(consecutively indexed from 0), and get_run_state returns all of it; the
raising call itself hands back only the error, not the partial log. -/
theorem C6_failure_surfaced (e : GraphEngine) (gid a0 ms : Nat) (graph : Graph)
    (e2 : GraphEngine) (msg : String)
    (hg : e.graphs.lookup gid = some graph)
    (hrun : run_graph e gid a0 ms = (e2, .error msg)) :
    ∃ r, e2.runs.lookup e.next_id = some r ∧
      r.status = "failed" ∧
      r.error = some msg ∧
      r.log.map (fun st => st.step_index) = List.range r.log.length ∧
      get_run_state e2 e.next_id =
        .ok ⟨r.id, r.graph_id, r.status, r.current_node_id, r.state, r.log, r.error⟩ := by
  cases hloop : runLoop graph (initRun e graph a0).2.1 ms ms 0 (initRun e graph a0).2.2 with
  | completed sf =>
    rw [run_graph_completed_eq e gid a0 ms graph sf hg hloop] at hrun
    injection hrun with h1 h2
    cases h2
  | failed sf m =>
    rw [run_graph_failed_eq e gid a0 ms graph sf m hg hloop] at hrun
    injection hrun with h1 h2
    injection h2 with h3
    subst h3
    obtain ⟨k, hInv⟩ := run_graph_failed_inv e a0 ms graph sf m hloop
    obtain ⟨r0, hr0, hm⟩ := hInv.rec_ex
    have hlook : e2.runs.lookup e.next_id =
        some { r0 with status := "failed", error := some m } := by
      rw [← h1]
      dsimp only
      rw [initRun_rid, lookup_updateRun_self, hr0]
      rfl
    have hlen2 : sf.log.length = k := by
      have h4 := congrArg List.length hInv.log_idx
      simpa using h4
    have hmap : r0.log.map (fun st => st.step_index) = List.range r0.log.length := by
      rw [hm.log_eq, hlen2]
      exact hInv.log_idx
    exact ⟨{ r0 with status := "failed", error := some m }, hlook, rfl, rfl, hmap,
      get_run_state_eq e2 e.next_id _ hlook⟩

/-- Claim C6, witness. -/
theorem C6_witness :
    ∃ r, (run_graph engine_selfloop 0 0 3).1.runs.lookup 1 = some r ∧
      r.status = "failed" ∧
      r.error = some (maxStepsMsg 3) ∧
      r.log.map (fun st => st.step_index) = List.range r.log.length ∧
      get_run_state (run_graph engine_selfloop 0 0 3).1 1 =
        .ok ⟨r.id, r.graph_id, r.status, r.current_node_id, r.state, r.log, r.error⟩ :=
  C6_failure_surfaced engine_selfloop 0 0 3 g1 (run_graph engine_selfloop 0 0 3).1
    (maxStepsMsg 3) rfl rfl

/-- Claim C7: the run record is created and stored with status running and
the graph's start node as current node before the first step executes, and
after every completed step the stored record holds the updated working
state (as a fresh copy with identical content), the new current node, and
the log of every step executed so far, so that get_run_state reflects the
most recent update at any point of the run. -/
theorem C7_live_record (e : GraphEngine) (a0 : Nat) (graph : Graph) :
    (∃ r0, (initRun e graph a0).2.2.engine.runs.lookup (initRun e graph a0).2.1 = some r0 ∧
       r0.status = "running" ∧
       r0.current_node_id = some (.vStr graph.start_node_id) ∧
       r0.log = [] ∧
       (initRun e graph a0).2.2.engine.heap.readD r0.state =
         (initRun e graph a0).2.2.engine.heap.readD (initRun e graph a0).2.2.stateAddr) ∧
    (∀ k s, loopIter graph (initRun e graph a0).2.1 k 0 (initRun e graph a0).2.2 = some s →
       ∃ r, s.engine.runs.lookup (initRun e graph a0).2.1 = some r ∧
         r.log = s.log ∧
         r.current_node_id = s.current ∧
         r.status = "running" ∧
         s.engine.heap.readD r.state = s.engine.heap.readD s.stateAddr ∧
         get_run_state s.engine (initRun e graph a0).2.1 =
           .ok ⟨r.id, r.graph_id, r.status, r.current_node_id, r.state, r.log, r.error⟩) := by
  constructor
  · obtain ⟨r0, hr0, hm⟩ := (initRun_inv e graph a0).rec_ex
    refine ⟨r0, hr0, hm.status_eq, ?_, ?_, hm.content⟩
    · rw [hm.cur_eq, initRun_s0_current]
    · rw [hm.log_eq, initRun_s0_log]
  · intro k s hit
    have hInv := loopIter_inv e.heap e.heap.length (initRun e graph a0).2.1 graph k 0
      (initRun e graph a0).2.2 s (initRun_inv e graph a0) hit
    obtain ⟨r, hr, hm⟩ := hInv.rec_ex
    exact ⟨r, hr, hm.log_eq, hm.cur_eq, hm.status_eq, hm.content,
      get_run_state_eq s.engine (initRun e graph a0).2.1 r hr⟩

/-- Claim C7, witness. -/
theorem C7_witness :
    ∃ s, loopIter g1 1 1 0 (initRun engine_id g1 0).2.2 = some s ∧
      ∃ r, s.engine.runs.lookup 1 = some r ∧ r.log = s.log ∧
        r.current_node_id = s.current ∧ r.status = "running" := by
  refine ⟨_, rfl, ?_⟩
  obtain ⟨r, h1, h2, h3, h4, h5, h6⟩ := (C7_live_record engine_id 0 g1).2 1 _ rfl
  exact ⟨r, h1, h2, h3, h4⟩

/-- A step of a log contributes both its snapshot addresses to `logAddrs`. -/
theorem mem_logAddrs_of_mem (log : List ExecutionStep) (st : ExecutionStep)
    (hst : st ∈ log) :
    st.input_state ∈ logAddrs log ∧ st.output_state ∈ logAddrs log := by
  constructor <;>
  · rw [logAddrs, List.mem_flatMap]
    exact ⟨st, hst, by simp⟩

/-- Claim C9: the caller-supplied initial state is deep-copied into the
run's working state, in both directions: no address that existed before the
run (in particular the caller's document) is ever written by the run, and
every address the finished or failed run record refers to (its state dict
and every logged snapshot) is fresh, so writing to the caller's document
afterwards changes nothing the record dereferences. -/
theorem C9_initial_state_isolation (e : GraphEngine) (gid a0 ms : Nat) (graph : Graph)
    (e2 : GraphEngine) (res : Except String (Nat × Nat × List ExecutionStep))
    (hg : e.graphs.lookup gid = some graph)
    (ha0 : a0 < e.heap.length)
    (hrun : run_graph e gid a0 ms = (e2, res)) :
    (∀ b, b < e.heap.length → e2.heap.readD b = e.heap.readD b) ∧
    (∀ r, e2.runs.lookup e.next_id = some r →
       e.heap.length ≤ r.state ∧
       (∀ st ∈ r.log, e.heap.length ≤ st.input_state ∧ e.heap.length ≤ st.output_state) ∧
       (∀ d2, (e2.heap.write a0 d2).readD r.state = e2.heap.readD r.state) ∧
       (∀ st ∈ r.log, ∀ d2,
         (e2.heap.write a0 d2).readD st.input_state = e2.heap.readD st.input_state ∧
         (e2.heap.write a0 d2).readD st.output_state = e2.heap.readD st.output_state)) := by
  have main : ∀ (sf : LoopState) (k : Nat), LoopInv e.heap e.heap.length e.next_id k sf →
      ∀ (f : RunRecord → RunRecord),
        (∀ r2, (f r2).state = r2.state ∧ (f r2).log = r2.log) →
        e2.heap = sf.engine.heap →
        e2.runs = updateRun sf.engine.runs e.next_id f →
        (∀ b, b < e.heap.length → e2.heap.readD b = e.heap.readD b) ∧
        (∀ r, e2.runs.lookup e.next_id = some r →
          e.heap.length ≤ r.state ∧
          (∀ st ∈ r.log, e.heap.length ≤ st.input_state ∧ e.heap.length ≤ st.output_state) ∧
          (∀ d2, (e2.heap.write a0 d2).readD r.state = e2.heap.readD r.state) ∧
          (∀ st ∈ r.log, ∀ d2,
            (e2.heap.write a0 d2).readD st.input_state = e2.heap.readD st.input_state ∧
            (e2.heap.write a0 d2).readD st.output_state = e2.heap.readD st.output_state)) := by
    intro sf k hInv f hf hheap hruns
    obtain ⟨r0, hr0, hm⟩ := hInv.rec_ex
    constructor
    · intro b hb
      rw [hheap]
      exact hInv.frame b hb
    · intro r hr
      rw [hruns, lookup_updateRun_self, hr0] at hr
      have hrf : r = f r0 := by
        injection hr with h2
        exact h2.symm
      subst hrf
      obtain ⟨hfs, hfl⟩ := hf r0
      refine ⟨?_, ?_, ?_, ?_⟩
      · rw [hfs]
        exact hm.state_ge
      · intro st hst
        rw [hfl, hm.log_eq] at hst
        obtain ⟨hi, ho⟩ := mem_logAddrs_of_mem sf.log st hst
        exact ⟨hInv.log_ge _ hi, hInv.log_ge _ ho⟩
      · intro d2
        rw [hfs]
        refine Heap.readD_write_ne _ _ _ _ ?_
        have := hm.state_ge
        omega
      · intro st hst d2
        rw [hfl, hm.log_eq] at hst
        obtain ⟨hi, ho⟩ := mem_logAddrs_of_mem sf.log st hst
        have h5 := hInv.log_ge _ hi
        have h6 := hInv.log_ge _ ho
        exact ⟨Heap.readD_write_ne _ _ _ _ (by omega),
          Heap.readD_write_ne _ _ _ _ (by omega)⟩
  cases hloop : runLoop graph (initRun e graph a0).2.1 ms ms 0 (initRun e graph a0).2.2 with
  | completed sf =>
    rw [run_graph_completed_eq e gid a0 ms graph sf hg hloop] at hrun
    injection hrun with h1 h2
    obtain ⟨k, hk, hInv, _⟩ := run_graph_completed_inv e a0 ms graph sf hloop
    exact main sf k hInv (fun r => { r with status := "completed" })
      (fun r2 => ⟨rfl, rfl⟩) (by subst h1; rfl) (by subst h1; rfl)
  | failed sf m =>
    rw [run_graph_failed_eq e gid a0 ms graph sf m hg hloop] at hrun
    injection hrun with h1 h2
    obtain ⟨k, hInv⟩ := run_graph_failed_inv e a0 ms graph sf m hloop
    exact main sf k hInv (fun r => { r with status := "failed", error := some m })
      (fun r2 => ⟨rfl, rfl⟩) (by subst h1; rfl) (by subst h1; rfl)

/-- Claim C9, witness. -/
theorem C9_witness :
    (∀ b, b < engine_id.heap.length →
      (run_graph engine_id 0 0 5).1.heap.readD b = engine_id.heap.readD b) ∧
    (∀ r, (run_graph engine_id 0 0 5).1.runs.lookup 1 = some r →
      engine_id.heap.length ≤ r.state) := by
  have h := C9_initial_state_isolation engine_id 0 0 5 g1 (run_graph engine_id 0 0 5).1
    (run_graph engine_id 0 0 5).2 rfl (by decide) rfl
  exact ⟨h.1, fun r hr => (h.2 r hr).1⟩

/-- The value of the working state right after a (non-raising) tool
invocation: the prior document for the None sentinel, the mutated copy when
the tool returns the dict it received, or the newly built document. -/
def toolOutputDoc (t : Tool) (d : StateDoc) : Option StateDoc :=
  match t.result d with
  | .noneRet => some d
  | .selfRet => some (t.effect d)
  | .newRet nd => some nd
  | .raiseErr _ => none

theorem invoke_tool_output_doc (t : Tool) (h : Heap) (a : Nat) (ivr : InvokeResult)
    (d5 : StateDoc) (ha : a < h.length)
    (hok : invoke_tool t h a = .ok ivr)
    (hout : toolOutputDoc t (h.readD a) = some d5) :
    ivr.heap.readD ivr.stateAddr = d5 := by
  obtain ⟨hlen, hframe, hread_n, hread_n1⟩ :=
    invoke_heap_facts h (h.readD a) (t.effect (h.readD a))
  cases hres : t.result (h.readD a) with
  | noneRet =>
    rw [invoke_tool_noneRet_eq t h a hres] at hok
    cases hok
    rw [toolOutputDoc, hres] at hout
    injection hout with hd
    dsimp only
    rw [hframe a (by omega) (by omega), hd]
  | selfRet =>
    rw [invoke_tool_selfRet_eq t h a hres] at hok
    cases hok
    rw [toolOutputDoc, hres] at hout
    injection hout with hd
    dsimp only
    rw [hread_n1, hd]
  | newRet d =>
    rw [invoke_tool_newRet_eq t h a d hres] at hok
    cases hok
    rw [toolOutputDoc, hres] at hout
    injection hout with hd
    dsimp only
    have h2 := Heap.readD_alloc_self
      (((h.alloc (h.readD a)).1.alloc (h.readD a)).1.write (h.length + 1)
        (t.effect (h.readD a))) d
    rw [hlen] at h2
    rw [h2, hd]
  | raiseErr m =>
    rw [toolOutputDoc, hres] at hout
    cases hout

/-- One step whose tool writes an undeclared node id into the control key:
the step itself completes and is logged, the undeclared id becomes the
current node unchecked, the following iteration fails resolving it, and the
loop (with at least two iterations of budget left) fails with that
KeyError. -/
theorem badControlStep_spec (graph : Graph) (rid ms idx : Nat) (s : LoopState)
    (cur tn bad : String) (t : Tool) (d5 : StateDoc)
    (hcur : s.current = some (.vStr cur))
    (hnode : graph.nodes.lookup cur = some tn)
    (hreg : s.engine.tool_registry.lookup tn = some t)
    (hsa : s.stateAddr < s.engine.heap.length)
    (hout : toolOutputDoc t (s.engine.heap.readD s.stateAddr) = some d5)
    (hkey : dictMem "_next_node" d5 = true)
    (hval : dictGetD "_next_node" d5 .vNull = .vStr bad)
    (hbad : graph.nodes.lookup bad = none) :
    ∃ s1, runStep graph rid idx s = .next s1 ∧
      s1.current = some (.vStr bad) ∧
      s1.log.length = s.log.length + 1 ∧
      runStep graph rid (idx + 1) s1 = .err s1 (keyErrorStr bad) ∧
      (∀ f, runLoop graph rid ms (f + 2) idx s = .failed s1 (keyErrorStr bad)) := by
  have hregget : registryGet s.engine.tool_registry tn = .ok t := by
    simp [registryGet, hreg]
  have hok : ∃ ivr, invoke_tool t s.engine.heap s.stateAddr = .ok ivr := by
    cases hres : t.result (s.engine.heap.readD s.stateAddr) with
    | noneRet => exact ⟨_, invoke_tool_noneRet_eq t _ _ hres⟩
    | selfRet => exact ⟨_, invoke_tool_selfRet_eq t _ _ hres⟩
    | newRet d => exact ⟨_, invoke_tool_newRet_eq t _ _ d hres⟩
    | raiseErr m =>
      rw [toolOutputDoc, hres] at hout
      cases hout
  obtain ⟨ivr, hinvk⟩ := hok
  have hstep : runStep graph rid idx s = .next (stepFinish graph rid idx s cur tn ivr) := by
    simp [runStep, hcur, hnode, hregget, hinvk]
  have hH5 : ((ivr.heap.alloc (ivr.heap.readD ivr.stateAddr)).1.readD ivr.stateAddr) = d5 := by
    rw [Heap.readD_alloc_dup]
    exact invoke_tool_output_doc t s.engine.heap s.stateAddr ivr d5 hsa hinvk hout
  have hcur1 : (stepFinish graph rid idx s cur tn ivr).current = some (.vStr bad) := by
    rw [stepFinish_current, resolve_next_mem _ _ _ _ (by rw [hH5]; exact hkey)]
    dsimp only
    rw [hH5, hval]
    rfl
  have hlog1 : (stepFinish graph rid idx s cur tn ivr).log.length = s.log.length + 1 := by
    rw [stepFinish_log]
    simp
  have herr : runStep graph rid (idx + 1) (stepFinish graph rid idx s cur tn ivr) =
      .err (stepFinish graph rid idx s cur tn ivr) (keyErrorStr bad) := by
    simp [runStep, hcur1, hbad]
  refine ⟨stepFinish graph rid idx s cur tn ivr, hstep, hcur1, hlog1, herr, ?_⟩
  intro f
  have hit : loopIter graph rid 1 idx s = some (stepFinish graph rid idx s cur tn ivr) := by
    unfold loopIter
    rw [hstep]
    rfl
  exact runLoop_err_of graph rid ms 1 (f + 2) idx s _ _ _ hit herr (by omega)

theorem initRun_s0_content (e : GraphEngine) (graph : Graph) (a0 : Nat) :
    (initRun e graph a0).2.2.engine.heap.readD (initRun e graph a0).2.2.stateAddr =
      e.heap.readD a0 := by
  rw [initRun_s0_stateAddr]
  show ((e.heap.alloc (e.heap.readD a0)).1.alloc
      ((e.heap.alloc (e.heap.readD a0)).1.readD (e.heap.alloc (e.heap.readD a0)).2)).1.readD
      e.heap.length = e.heap.readD a0
  rw [Heap.readD_alloc_ne _ _ _ (by rw [Heap.length_alloc]; omega)]
  exact Heap.readD_alloc_self e.heap _

/-- Claim C10: the value a tool stores under the control key is never
validated against the graph's node set.  First part, at an arbitrary point
of any run: if the tool's output document carries the control key with a
non-null id that is not a node, the step completes and is logged, the bogus
id becomes the current node, and the next iteration's node-to-tool
resolution raises the KeyError that ends the loop.  Second part, for a whole
run whose start-node tool does this: run_graph raises that KeyError and the
stored record is failed with it, with the one completed step logged. -/
theorem C10_unvalidated_control_key :
    (∀ (graph : Graph) (rid ms idx : Nat) (s : LoopState)
       (cur tn bad : String) (t : Tool) (d5 : StateDoc),
       s.current = some (.vStr cur) →
       graph.nodes.lookup cur = some tn →
       s.engine.tool_registry.lookup tn = some t →
       s.stateAddr < s.engine.heap.length →
       toolOutputDoc t (s.engine.heap.readD s.stateAddr) = some d5 →
       dictMem "_next_node" d5 = true →
       dictGetD "_next_node" d5 .vNull = .vStr bad →
       graph.nodes.lookup bad = none →
       ∃ s1, runStep graph rid idx s = .next s1 ∧
         s1.current = some (.vStr bad) ∧
         s1.log.length = s.log.length + 1 ∧
         runStep graph rid (idx + 1) s1 = .err s1 (keyErrorStr bad) ∧
         (∀ f, runLoop graph rid ms (f + 2) idx s = .failed s1 (keyErrorStr bad))) ∧
    (∀ (e : GraphEngine) (gid a0 ms : Nat) (graph : Graph)
       (tn bad : String) (t : Tool) (d5 : StateDoc),
       e.graphs.lookup gid = some graph →
       graph.nodes.lookup graph.start_node_id = some tn →
       e.tool_registry.lookup tn = some t →
       toolOutputDoc t (e.heap.readD a0) = some d5 →
       dictMem "_next_node" d5 = true →
       dictGetD "_next_node" d5 .vNull = .vStr bad →
       graph.nodes.lookup bad = none →
       2 ≤ ms →
       (run_graph e gid a0 ms).2 = .error (keyErrorStr bad) ∧
       ∃ r, (run_graph e gid a0 ms).1.runs.lookup e.next_id = some r ∧
         r.status = "failed" ∧ r.error = some (keyErrorStr bad) ∧ r.log.length = 1) := by
  constructor
  · intro graph rid ms idx s cur tn bad t d5 hcur hnode hreg hsa hout hkey hval hbad
    exact badControlStep_spec graph rid ms idx s cur tn bad t d5 hcur hnode hreg hsa hout
      hkey hval hbad
  · intro e gid a0 ms graph tn bad t d5 hg hnode hreg hout hkey hval hbad hms
    obtain ⟨f, rfl⟩ : ∃ f, ms = f + 2 := ⟨ms - 2, by omega⟩
    have hInv0 := initRun_inv e graph a0
    obtain ⟨s1, hstep, hcur1, hlog1, herr, hloopf⟩ :=
      badControlStep_spec graph (initRun e graph a0).2.1 (f + 2) 0
        (initRun e graph a0).2.2 graph.start_node_id tn bad t d5
        (initRun_s0_current e graph a0) hnode
        (by rw [initRun_s0_engine]; exact hreg)
        hInv0.state_lt
        (by rw [initRun_s0_content]; exact hout)
        hkey hval hbad
    have hloop := hloopf f
    have heq := run_graph_failed_eq e gid a0 (f + 2) graph s1 (keyErrorStr bad) hg hloop
    rw [heq]
    refine ⟨rfl, ?_⟩
    have hInv1 := runStep_next_inv e.heap e.heap.length (initRun e graph a0).2.1 0
      (initRun e graph a0).2.2 s1 graph hInv0 hstep
    obtain ⟨r0, hr0, hm⟩ := hInv1.rec_ex
    refine ⟨{ r0 with status := "failed", error := some (keyErrorStr bad) }, ?_, rfl, rfl, ?_⟩
    · dsimp only
      rw [initRun_rid, lookup_updateRun_self]
      rw [initRun_rid] at hr0
      rw [hr0]
      rfl
    · dsimp only
      rw [hm.log_eq, hlog1, initRun_s0_log]
      rfl

/-- Claim C10, witness: a concrete run whose tool points the control key at
the undeclared node ghost. -/
theorem C10_witness :
    (run_graph ⟨[("t", ⟨fun d => dictSet d "_next_node" (.vStr "ghost"), fun _ => .selfRet⟩)],
        [(0, g1)], [], ⟨[[]]⟩, 1⟩ 0 0 5).2 = .error (keyErrorStr "ghost") ∧
    ∃ r, (run_graph ⟨[("t", ⟨fun d => dictSet d "_next_node" (.vStr "ghost"), fun _ => .selfRet⟩)],
        [(0, g1)], [], ⟨[[]]⟩, 1⟩ 0 0 5).1.runs.lookup 1 = some r ∧
      r.status = "failed" ∧ r.error = some (keyErrorStr "ghost") ∧ r.log.length = 1 :=
  C10_unvalidated_control_key.2
    ⟨[("t", ⟨fun d => dictSet d "_next_node" (.vStr "ghost"), fun _ => .selfRet⟩)],
      [(0, g1)], [], ⟨[[]]⟩, 1⟩ 0 0 5 g1 "t" "ghost"
    ⟨fun d => dictSet d "_next_node" (.vStr "ghost"), fun _ => .selfRet⟩
    [("_next_node", .vStr "ghost")] rfl rfl rfl rfl rfl rfl rfl (by omega)

/-! Frame machinery: overwriting a heap cell that the loop does not use
commutes with execution. -/

/-- The loop state with one heap cell overwritten. -/
def LoopState.writeHeap (s : LoopState) (a : Nat) (d : StateDoc) : LoopState :=
  { s with engine := { s.engine with heap := s.engine.heap.write a d } }

def StepOutcome.writeHeap (a : Nat) (d : StateDoc) : StepOutcome → StepOutcome
  | .brk s => .brk (s.writeHeap a d)
  | .err s m => .err (s.writeHeap a d) m
  | .next s => .next (s.writeHeap a d)

def LoopResult.writeHeap (a : Nat) (d : StateDoc) : LoopResult → LoopResult
  | .completed s => .completed (s.writeHeap a d)
  | .failed s m => .failed (s.writeHeap a d) m

theorem Heap.alloc_write_comm (h : Heap) (a : Nat) (d x : StateDoc) (ha : a < h.length) :
    ((h.write a d).alloc x).1 = ((h.alloc x).1).write a d := by
  show (⟨(h.cells.set a d) ++ [x]⟩ : Heap) = ⟨(h.cells ++ [x]).set a d⟩
  rw [List.set_append]
  simp only [Heap.length] at ha
  simp [ha]

theorem Heap.write_write_comm (h : Heap) (a b : Nat) (d x : StateDoc) (hab : a ≠ b) :
    (h.write a d).write b x = (h.write b x).write a d := by
  show (⟨(h.cells.set a d).set b x⟩ : Heap) = ⟨(h.cells.set b x).set a d⟩
  rw [List.set_comm _ _ _ hab]

theorem resolve_next_write_comm (graph : Graph) (cur : String) (h : Heap) (sa a : Nat)
    (d : StateDoc) (ha1 : a ≠ sa) :
    resolve_next graph cur (h.write a d) sa =
      ((resolve_next graph cur h sa).1.write a d, (resolve_next graph cur h sa).2) := by
  have e1 : (h.write a d).readD sa = h.readD sa := Heap.readD_write_ne h a d sa (by omega)
  cases hmem : dictMem "_next_node" (h.readD sa) with
  | false =>
    rw [resolve_next_nomem graph cur (h.write a d) sa (by rw [e1]; exact hmem),
      resolve_next_nomem graph cur h sa hmem]
  | true =>
    rw [resolve_next_mem graph cur (h.write a d) sa (by rw [e1]; exact hmem),
      resolve_next_mem graph cur h sa hmem]
    rw [e1, Heap.write_write_comm h a sa d _ ha1]

theorem invoke_tool_write_comm (t : Tool) (h : Heap) (sa a : Nat) (d : StateDoc)
    (ha1 : a ≠ sa) (ha2 : a < h.length) :
    invoke_tool t (h.write a d) sa =
      (match invoke_tool t h sa with
       | .ok ivr => .ok ⟨ivr.heap.write a d, ivr.inAddr, ivr.argAddr, ivr.stateAddr⟩
       | .error pr => .error (pr.1.write a d, pr.2)) := by
  have e1 : (h.write a d).readD sa = h.readD sa := Heap.readD_write_ne h a d sa (by omega)
  have e3 : (h.write a d).length = h.length := Heap.length_write h a d
  have ecomp : (((h.write a d).alloc (h.readD sa)).1.alloc (h.readD sa)).1.write
      (h.length + 1) (t.effect (h.readD sa)) =
      ((((h.alloc (h.readD sa)).1.alloc (h.readD sa)).1.write (h.length + 1)
        (t.effect (h.readD sa))).write a d) := by
    rw [Heap.alloc_write_comm h a d _ ha2,
      Heap.alloc_write_comm (h.alloc (h.readD sa)).1 a d _
        (by rw [Heap.length_alloc]; omega),
      Heap.write_write_comm _ a (h.length + 1) d _ (by omega)]
  cases hres : t.result (h.readD sa) with
  | noneRet =>
    rw [invoke_tool_noneRet_eq t (h.write a d) sa (by rw [e1]; exact hres),
      invoke_tool_noneRet_eq t h sa hres]
    rw [e1, e3, ecomp]
  | selfRet =>
    rw [invoke_tool_selfRet_eq t (h.write a d) sa (by rw [e1]; exact hres),
      invoke_tool_selfRet_eq t h sa hres]
    rw [e1, e3, ecomp]
  | newRet nd =>
    rw [invoke_tool_newRet_eq t (h.write a d) sa nd (by rw [e1]; exact hres),
      invoke_tool_newRet_eq t h sa nd hres]
    rw [e1, e3, ecomp]
    rw [Heap.alloc_write_comm _ a d nd
      (by rw [Heap.length_write, Heap.length_alloc, Heap.length_alloc]; omega)]
  | raiseErr m =>
    rw [invoke_tool_raise_eq t (h.write a d) sa m (by rw [e1]; exact hres),
      invoke_tool_raise_eq t h sa m hres]
    rw [e1, e3, ecomp]

theorem stepFinish_write_comm (graph : Graph) (rid idx : Nat) (s : LoopState)
    (cur tn : String) (ivr : InvokeResult) (a : Nat) (d : StateDoc)
    (ha1 : a ≠ ivr.stateAddr) (ha2 : a < ivr.heap.length) :
    stepFinish graph rid idx (s.writeHeap a d) cur tn
      ⟨ivr.heap.write a d, ivr.inAddr, ivr.argAddr, ivr.stateAddr⟩ =
      (stepFinish graph rid idx s cur tn ivr).writeHeap a d := by
  have e0 : (ivr.heap.write a d).readD ivr.stateAddr = ivr.heap.readD ivr.stateAddr :=
    Heap.readD_write_ne ivr.heap a d ivr.stateAddr (by omega)
  have hRNlen : (resolve_next graph cur (ivr.heap.alloc (ivr.heap.readD ivr.stateAddr)).1
      ivr.stateAddr).1.length = ivr.heap.length + 1 := by
    rw [resolve_next_length, Heap.length_alloc]
  simp only [stepFinish, LoopState.writeHeap]
  rw [e0, Heap.alloc_write_comm ivr.heap a d _ ha2]
  rw [show ((ivr.heap.write a d).alloc (ivr.heap.readD ivr.stateAddr)).2 =
    (ivr.heap.alloc (ivr.heap.readD ivr.stateAddr)).2 from by
      show (ivr.heap.write a d).length = ivr.heap.length
      exact Heap.length_write ivr.heap a d]
  rw [resolve_next_write_comm graph cur _ ivr.stateAddr a d (by omega)]
  dsimp only
  rw [Heap.readD_write_ne _ a d ivr.stateAddr (by omega)]
  rw [Heap.alloc_write_comm _ a d _ (by rw [hRNlen]; omega)]
  rw [show ((resolve_next graph cur (ivr.heap.alloc (ivr.heap.readD ivr.stateAddr)).1
      ivr.stateAddr).1.write a d).alloc
      ((resolve_next graph cur (ivr.heap.alloc (ivr.heap.readD ivr.stateAddr)).1
        ivr.stateAddr).1.readD ivr.stateAddr) =
    (((resolve_next graph cur (ivr.heap.alloc (ivr.heap.readD ivr.stateAddr)).1
        ivr.stateAddr).1.alloc
      ((resolve_next graph cur (ivr.heap.alloc (ivr.heap.readD ivr.stateAddr)).1
        ivr.stateAddr).1.readD ivr.stateAddr)).1.write a d,
     (resolve_next graph cur (ivr.heap.alloc (ivr.heap.readD ivr.stateAddr)).1
        ivr.stateAddr).1.length) from ?_]
  · rfl
  · refine Prod.ext ?_ ?_
    · exact Heap.alloc_write_comm _ a d _ (by rw [hRNlen]; omega)
    · show ((resolve_next graph cur (ivr.heap.alloc (ivr.heap.readD ivr.stateAddr)).1
        ivr.stateAddr).1.write a d).length = _
      exact Heap.length_write _ a d

/-- A completed iteration keeps the working-state address or moves it to a
fresh one, and only grows the heap. -/
theorem runStep_next_addr_facts (graph : Graph) (rid idx : Nat) (s s1 : LoopState)
    (h : runStep graph rid idx s = .next s1) :
    (s1.stateAddr = s.stateAddr ∨ s.engine.heap.length + 1 ≤ s1.stateAddr) ∧
    s.engine.heap.length ≤ s1.engine.heap.length := by
  cases hcur : s.current with
  | none => simp [runStep, hcur] at h
  | some v =>
    cases v with
    | vStr cur =>
      cases hn : graph.nodes.lookup cur with
      | none => simp [runStep, hcur, hn] at h
      | some tn =>
        cases hreg : registryGet s.engine.tool_registry tn with
        | error m2 => simp [runStep, hcur, hn, hreg] at h
        | ok tool =>
          cases hinvk : invoke_tool tool s.engine.heap s.stateAddr with
          | error pr => simp [runStep, hcur, hn, hreg, hinvk] at h
          | ok ivr =>
            have h2 : stepFinish graph rid idx s cur tn ivr = s1 := by
              simpa [runStep, hcur, hn, hreg, hinvk] using h
            obtain ⟨hin, hge2, hsa_or, hfr, hread_in⟩ :=
              invoke_tool_ok_facts tool s.engine.heap s.stateAddr ivr hinvk
            rw [← h2]
            constructor
            · rw [stepFinish_stateAddr]
              rcases hsa_or with hc | hc
              · exact Or.inl hc
              · exact Or.inr (by omega)
            · have hH7len : (stepFinish graph rid idx s cur tn ivr).engine.heap.length =
                  ivr.heap.length + 2 := by
                rw [stepFinish_engine_heap, Heap.length_alloc, resolve_next_length,
                  Heap.length_alloc]
              rw [hH7len]
              omega
    | vNull => simp [runStep, hcur] at h
    | vBool b => simp [runStep, hcur] at h
    | vInt n => simp [runStep, hcur] at h

/-- Writing to a cell the loop does not reference commutes with one
iteration of the loop body. -/
theorem runStep_write_comm (graph : Graph) (rid idx : Nat) (s : LoopState)
    (a : Nat) (d : StateDoc)
    (ha1 : a ≠ s.stateAddr) (ha2 : a < s.engine.heap.length) :
    runStep graph rid idx (s.writeHeap a d) =
      (runStep graph rid idx s).writeHeap a d := by
  cases hcur : s.current with
  | none => simp [runStep, LoopState.writeHeap, hcur, StepOutcome.writeHeap]
  | some v =>
    cases v with
    | vStr cur =>
      cases hn : graph.nodes.lookup cur with
      | none => simp [runStep, LoopState.writeHeap, hcur, hn, StepOutcome.writeHeap]
      | some tn =>
        cases hreg : registryGet s.engine.tool_registry tn with
        | error m2 => simp [runStep, LoopState.writeHeap, hcur, hn, hreg, StepOutcome.writeHeap]
        | ok tool =>
          have hwinv := invoke_tool_write_comm tool s.engine.heap s.stateAddr a d ha1 ha2
          cases hinvk : invoke_tool tool s.engine.heap s.stateAddr with
          | error pr =>
            rw [hinvk] at hwinv
            have hwinv2 : invoke_tool tool (s.engine.heap.write a d) s.stateAddr =
                .error (pr.1.write a d, pr.2) := hwinv
            simp [runStep, LoopState.writeHeap, hcur, hn, hreg, hinvk, hwinv2,
              StepOutcome.writeHeap]
          | ok ivr =>
            rw [hinvk] at hwinv
            have hwinv2 : invoke_tool tool (s.engine.heap.write a d) s.stateAddr =
                .ok ⟨ivr.heap.write a d, ivr.inAddr, ivr.argAddr, ivr.stateAddr⟩ := hwinv
            obtain ⟨hin, hge2, hsa_or, hfr, hread_in⟩ :=
              invoke_tool_ok_facts tool s.engine.heap s.stateAddr ivr hinvk
            have ha1' : a ≠ ivr.stateAddr := by
              rcases hsa_or with hc | hc
              · omega
              · omega
            have ha2' : a < ivr.heap.length := by omega
            have hsf := stepFinish_write_comm graph rid idx s cur tn ivr a d ha1' ha2'
            simp only [runStep, LoopState.writeHeap, hcur, hn, hreg, hwinv2, hinvk,
              StepOutcome.writeHeap]
            exact congrArg StepOutcome.next hsf
    | vNull => simp [runStep, LoopState.writeHeap, hcur, StepOutcome.writeHeap]
    | vBool b => simp [runStep, LoopState.writeHeap, hcur, StepOutcome.writeHeap]
    | vInt n => simp [runStep, LoopState.writeHeap, hcur, StepOutcome.writeHeap]

/-- Writing to a cell the loop does not reference commutes with the entire
remaining run: everything except that one heap cell comes out identical. -/
theorem runLoop_write_comm (graph : Graph) (rid ms : Nat) :
    ∀ (fuel idx : Nat) (s : LoopState) (a : Nat) (d : StateDoc),
      a ≠ s.stateAddr → a < s.engine.heap.length →
      runLoop graph rid ms fuel idx (s.writeHeap a d) =
        (runLoop graph rid ms fuel idx s).writeHeap a d
  | 0, idx, s, a, d, ha1, ha2 => rfl
  | fuel + 1, idx, s, a, d, ha1, ha2 => by
    have hcomm := runStep_write_comm graph rid idx s a d ha1 ha2
    unfold runLoop
    rw [hcomm]
    cases hstep : runStep graph rid idx s with
    | brk s1 => rfl
    | err s1 m => rfl
    | next s1 =>
      show runLoop graph rid ms fuel (idx + 1) (s1.writeHeap a d) =
        (runLoop graph rid ms fuel (idx + 1) s1).writeHeap a d
      obtain ⟨hor, hlen⟩ := runStep_next_addr_facts graph rid idx s s1 hstep
      refine runLoop_write_comm graph rid ms fuel (idx + 1) s1 a d ?_ (by omega)
      rcases hor with hc | hc
      · rw [hc]; exact ha1
      · omega

/-- Claim C8, counterexample: after a completed run, the log returned by
get_run_state and the log held in the stored RunRecord are the very same
list of ExecutionSteps (identical snapshot addresses 3 and 5).  Overwriting
the dict behind the retrieved entry's output_state address therefore changes
what the record's own log entry dereferences — so mutating a retrieved log
entry does affect the log held in the live RunRecord, refuting the claim as
stated. -/
theorem C8_counterexample :
    (get_run_state (run_graph engine_id 0 0 5).1 1).map (fun resp => resp.log) =
      .ok [⟨0, "a", "t", 3, 5⟩] ∧
    ((run_graph engine_id 0 0 5).1.runs.lookup 1).map (fun r => r.log) =
      some [⟨0, "a", "t", 3, 5⟩] ∧
    (run_graph engine_id 0 0 5).1.heap.readD 5 = [("k", .vStr "v")] ∧
    ((run_graph engine_id 0 0 5).1.heap.write 5 [("hacked", .vNull)]).readD 5 =
      [("hacked", .vNull)] ∧
    ([("hacked", .vNull)] : StateDoc) ≠ [("k", .vStr "v")] :=
  ⟨rfl, rfl, rfl, rfl, by decide⟩

/-- Claim C8, amended: the input_state and output_state snapshots of the
log are independent deep copies — their addresses are pairwise distinct and
disjoint from both the working state and the record's state dict — so
mutating the dict behind a retrieved log entry never affects subsequent run
behavior (the remaining run is identical except for that one heap cell) and
never affects the state held in the live RunRecord.  It does, however,
remain visible through the record's own log, because the record shares the
log entries by reference (see the counterexample). -/
theorem C8_amended (e : GraphEngine) (a0 : Nat) (graph : Graph) :
    ∀ k s, loopIter graph (initRun e graph a0).2.1 k 0 (initRun e graph a0).2.2 = some s →
      (logAddrs s.log).Nodup ∧
      s.stateAddr ∉ logAddrs s.log ∧
      (∀ a, a ∈ logAddrs s.log → a ≠ s.stateAddr ∧ a < s.engine.heap.length) ∧
      (∀ r, s.engine.runs.lookup (initRun e graph a0).2.1 = some r →
        r.state ∉ logAddrs s.log ∧
        ∀ a d2, a ∈ logAddrs s.log →
          (s.engine.heap.write a d2).readD r.state = s.engine.heap.readD r.state) ∧
      (∀ a d2 ms fuel idx, a ∈ logAddrs s.log →
        runLoop graph (initRun e graph a0).2.1 ms fuel idx (s.writeHeap a d2) =
          (runLoop graph (initRun e graph a0).2.1 ms fuel idx s).writeHeap a d2) := by
  intro k s hit
  have hInv := loopIter_inv e.heap e.heap.length (initRun e graph a0).2.1 graph k 0
    (initRun e graph a0).2.2 s (initRun_inv e graph a0) hit
  refine ⟨hInv.log_nodup, hInv.state_notin, ?_, ?_, ?_⟩
  · intro a ha
    refine ⟨?_, hInv.log_lt a ha⟩
    intro hc
    rw [hc] at ha
    exact hInv.state_notin ha
  · intro r hr
    obtain ⟨r0, hr0, hm⟩ := hInv.rec_ex
    rw [hr0] at hr
    injection hr with hr2
    subst hr2
    refine ⟨hm.state_notin, ?_⟩
    intro a d2 ha
    refine Heap.readD_write_ne _ _ _ _ ?_
    intro hc
    rw [← hc] at ha
    exact hm.state_notin ha
  · intro a d2 ms fuel idx ha
    refine runLoop_write_comm graph (initRun e graph a0).2.1 ms fuel idx s a d2 ?_
      (hInv.log_lt a ha)
    intro hc
    rw [hc] at ha
    exact hInv.state_notin ha

/-- Claim C8, witness. -/
theorem C8_witness :
    ∃ s, loopIter g1 1 1 0 (initRun engine_id g1 0).2.2 = some s ∧
      (logAddrs s.log).Nodup ∧ s.stateAddr ∉ logAddrs s.log := by
  refine ⟨_, rfl, ?_, ?_⟩
  · exact (C8_amended engine_id 0 g1 1 _ rfl).1
  · exact (C8_amended engine_id 0 g1 1 _ rfl).2.1

end WorkflowEngine
